/-
Verification development for the doggo JSDoc-coverage analyzer.

The definitions below are a shallow embedding of the export-resolution core
(core.ts).  File-system reads are modelled by an explicit `FileSys` value
(path-to-content association list plus a directory list); every other
construct is translated line by line from the TypeScript source.  JavaScript
regular-expression matches are embedded as dedicated character-list scanners
whose behaviour on the inputs of interest coincides with the regexes quoted
in comments.  String primitives (trim, startsWith, split, includes) are
re-implemented by structural recursion on character lists so that all
concrete runs reduce inside the kernel.
-/
import Mathlib

set_option maxRecDepth 80000

namespace Doggo

/-! ## Character and string helpers (models of the JS string primitives) -/

/-- Word characters of the JS regex class backslash-w: ASCII letters, digits
and underscore. -/
def isWordChar (c : Char) : Bool := c.isAlphanum || c = '_'

/-- The double-quote character. -/
def dquoteC : Char := Char.ofNat 34

/-- The single-quote character. -/
def squoteC : Char := Char.ofNat 39

/-- The opening curly brace character. -/
def lbraceC : Char := Char.ofNat 123

/-- The closing curly brace character. -/
def rbraceC : Char := Char.ofNat 125

/-- Whether the first list is an initial segment of the second. -/
def listStartsWith : List Char → List Char → Bool
  | [], _ => true
  | _ :: _, [] => false
  | p :: ps, c :: cs => p = c && listStartsWith ps cs

/-- Model of JS String.prototype.startsWith. -/
def jsStartsWith (s pre : String) : Bool := listStartsWith pre.data s.data

/-- Model of JS String.prototype.endsWith. -/
def jsEndsWith (s suf : String) : Bool :=
  listStartsWith suf.data.reverse s.data.reverse

/-- Model of JS String.prototype.trim: drop whitespace from both ends. -/
def jsTrim (s : String) : String :=
  String.mk (((s.data.dropWhile Char.isWhitespace).reverse.dropWhile
    Char.isWhitespace).reverse)

/-- Whether the pattern occurs as a contiguous sublist. -/
def listContainsSub (pat : List Char) : List Char → Bool
  | [] => listStartsWith pat []
  | c :: cs => listStartsWith pat (c :: cs) || listContainsSub pat cs

/-- Model of JS String.prototype.includes. -/
def jsIncludes (s pat : String) : Bool := listContainsSub pat.data s.data

/-- Worker for `jsSplit`; the fuel is an upper bound on the remaining length
and is never exhausted when initialised to length + 1. -/
def splitOnGo (sep : List Char) : Nat → List Char → List Char → List (List Char)
  | 0, acc, cs => [acc.reverse ++ cs]
  | _ + 1, acc, [] => [acc.reverse]
  | fuel + 1, acc, c :: cs =>
    if listStartsWith sep (c :: cs) then
      acc.reverse :: splitOnGo sep fuel [] ((c :: cs).drop sep.length)
    else
      splitOnGo sep fuel (c :: acc) cs

/-- Model of JS String.prototype.split with a literal separator. -/
def jsSplit (s sep : String) : List String :=
  match sep.data with
  | [] => [s]
  | _ :: _ => (splitOnGo sep.data (s.data.length + 1) [] s.data).map String.mk

/-- Model of Array.prototype.join. -/
def joinWith (sep : String) : List String → String
  | [] => ""
  | [x] => x
  | x :: y :: rest => x ++ sep ++ joinWith sep (y :: rest)

/-- Pair every element with its index, starting from the given offset. -/
def enumFrom : Nat → List α → List (Nat × α)
  | _, [] => []
  | n, a :: as => (n, a) :: enumFrom (n + 1) as

/-! ### The regex split on whitespace-delimited "as"

Model of JS split on the regex of one-or-more whitespace characters, the
literal "as", and one-or-more whitespace characters. -/

/-- If the input begins with whitespace, "as", whitespace, return the rest
after the (maximal) trailing whitespace run; otherwise fail. -/
def matchAsAt (cs : List Char) : Option (List Char) :=
  match cs with
  | c :: rest =>
    if c.isWhitespace then
      match rest.dropWhile Char.isWhitespace with
      | 'a' :: 's' :: r2 =>
        match r2 with
        | d :: r3 =>
          if d.isWhitespace then some (r3.dropWhile Char.isWhitespace) else none
        | [] => none
      | _ => none
    else none
  | [] => none

/-- Worker for `splitAs`; fuel is length + 1 and never runs out because every
match consumes at least one character. -/
def splitAsGo : Nat → List Char → List Char → List String
  | 0, acc, cs => [String.mk (acc.reverse ++ cs)]
  | _ + 1, acc, [] => [String.mk acc.reverse]
  | fuel + 1, acc, c :: cs =>
    match matchAsAt (c :: cs) with
    | some r => String.mk acc.reverse :: splitAsGo fuel [] r
    | none => splitAsGo fuel (c :: acc) cs

/-- Model of the JS split on the whitespace-"as"-whitespace regex, as used on
the items of an export or import brace list. -/
def splitAs (s : String) : List String := splitAsGo (s.data.length + 1) [] s.data

/-! ## Scanners for the individual regular expressions of core.ts

JS String.prototype.match searches for the leftmost occurrence, so every
scanner below comes in two layers: a matcher anchored at a position, and
`searchFrom`, which tries the matcher at every suffix, leftmost first. -/

/-- Try the matcher at every suffix of the input, leftmost match first. -/
def searchFrom (f : List Char → Option α) : List Char → Option α
  | [] => f []
  | c :: cs =>
    match f (c :: cs) with
    | some r => some r
    | none => searchFrom f cs

/-- Consume the literal at the head of the input. -/
def dropLit (lit : List Char) (cs : List Char) : Option (List Char) :=
  if listStartsWith lit cs then some (cs.drop lit.length) else none

/-- Consume one or more whitespace characters (greedy), as the regex
whitespace-plus does when followed by a non-whitespace token. -/
def dropWs1 (cs : List Char) : Option (List Char) :=
  match cs with
  | c :: rest =>
    if c.isWhitespace then some (rest.dropWhile Char.isWhitespace) else none
  | [] => none

/-- Take a maximal nonempty run of word characters (the regex word-plus
capture group). -/
def takeWord1 (cs : List Char) : Option (String × List Char) :=
  let w := cs.takeWhile isWordChar
  if w.isEmpty then none else some (String.mk w, cs.dropWhile isWordChar)

/-- Matcher for the regex "KEYWORD whitespace-plus (word-plus)" at a
position, capturing the word. -/
def kwNameAt (kw : String) (cs : List Char) : Option String := do
  let r ← dropLit kw.data cs
  let r ← dropWs1 r
  let (w, _) ← takeWord1 r
  pure w

/-- Model of line.match on a regex of the form "KEYWORD ws+ (word+)",
searched anywhere in the line (for example "function ws+ (word+)"). -/
def kwName (kw : String) (line : String) : Option String :=
  searchFrom (kwNameAt kw) line.data

/-- Alternation of `kwNameAt` over several keywords, tried in order, as the
regex group "(?:const|let|var)" does. -/
def kwAltNameAt (kws : List String) (cs : List Char) : Option String :=
  match kws with
  | [] => none
  | k :: ks =>
    match kwNameAt k cs with
    | some w => some w
    | none => kwAltNameAt ks cs

/-- Matcher for "export ws+ (async ws+)? function ws+ (word+)" at a
position.  When "async" matches but the rest fails, the no-async branch
fails for the same reason, so no backtracking is needed. -/
def exportFnNameAt (cs : List Char) : Option String := do
  let r ← dropLit "export".data cs
  let r ← dropWs1 r
  let r2 :=
    match (do
      let a ← dropLit "async".data r
      dropWs1 a) with
    | some a => a
    | none => r
  kwNameAt "function" r2

/-- Matcher for "export ws+ KEYWORD ws+ (word+)" at a position. -/
def exportKwNameAt (kw : String) (cs : List Char) : Option String := do
  let r ← dropLit "export".data cs
  let r ← dropWs1 r
  kwNameAt kw r

/-- Matcher for "export ws+ (?:const|let|var) ws+ (word+)" at a position. -/
def exportAltNameAt (kws : List String) (cs : List Char) : Option String := do
  let r ← dropLit "export".data cs
  let r ← dropWs1 r
  kwAltNameAt kws r

/-- Whether the character is one of the two JS quote characters, the
character class of the module-specifier regexes. -/
def isQuote (c : Char) : Bool := c = dquoteC || c = squoteC

/-- Consume a quoted specifier: a quote, one or more non-quote characters
(captured), and a closing quote, as in the regex
quote (non-quote-plus) quote. -/
def quotedAt (cs : List Char) : Option (String × List Char) :=
  match cs with
  | q :: rest =>
    if isQuote q then
      let body := rest.takeWhile (fun c => !isQuote c)
      let rest2 := rest.dropWhile (fun c => !isQuote c)
      if body.isEmpty then none
      else
        match rest2 with
        | q2 :: r3 => if isQuote q2 then some (String.mk body, r3) else none
        | [] => none
    else none
  | [] => none

/-- Matcher at a position for the regex "from ws+ quote (non-quote-plus)
quote", capturing the module specifier. -/
def fromSpecAt (cs : List Char) : Option String := do
  let r ← dropLit "from".data cs
  let r ← dropWs1 r
  let (spec, _) ← quotedAt r
  pure spec

/-- Model of trimmed.match on the from-specifier regex in
traceExportsFromFile. -/
def reFromSpec (line : String) : Option String := searchFrom fromSpecAt line.data

/-- Matcher at a position for the brace-list regexes
"export ws* (type ws+)? lbrace ws* (non-rbrace-plus) ws* rbrace", capturing
the text between the braces.  The leading ws* of the capture position is
kept in the capture here; all callers trim the comma-split items, so the
difference is unobservable. -/
def braceInnerAt (allowType : Bool) (cs : List Char) : Option String := do
  let r ← dropLit "export".data cs
  let r := r.dropWhile Char.isWhitespace
  let r :=
    if allowType then
      match (do
        let a ← dropLit "type".data r
        dropWs1 a) with
      | some a => a
      | none => r
    else r
  match r with
  | c :: rest =>
    if c = lbraceC then
      let body := rest.takeWhile (fun d => d ≠ rbraceC)
      let rest2 := rest.dropWhile (fun d => d ≠ rbraceC)
      if body.isEmpty then none
      else
        match rest2 with
        | c2 :: _ => if c2 = rbraceC then some (String.mk body) else none
        | [] => none
    else none
  | [] => none

/-- Matcher at a position for the named-import regex
"import ws* lbrace (non-rbrace-plus) rbrace ws* from ws* quote
(non-quote-plus) quote", capturing the brace body and the specifier. -/
def importNamedAt (cs : List Char) : Option (String × String) := do
  let r ← dropLit "import".data cs
  let r := r.dropWhile Char.isWhitespace
  match r with
  | c :: rest =>
    if c = lbraceC then
      let body := rest.takeWhile (fun d => d ≠ rbraceC)
      let rest2 := rest.dropWhile (fun d => d ≠ rbraceC)
      if body.isEmpty then none
      else
        match rest2 with
        | c2 :: r3 =>
          if c2 = rbraceC then do
            let r4 := r3.dropWhile Char.isWhitespace
            let r5 ← dropLit "from".data r4
            let r6 := r5.dropWhile Char.isWhitespace
            let (spec, _) ← quotedAt r6
            pure (String.mk body, spec)
          else none
        | [] => none
    else none
  | [] => none

/-- Matcher at a position for the default-import regex
"import ws+ (word+) ws+ from ws* quote (non-quote-plus) quote". -/
def importDefaultAt (cs : List Char) : Option (String × String) := do
  let r ← dropLit "import".data cs
  let r ← dropWs1 r
  let (w, r2) ← takeWord1 r
  let r3 ← dropWs1 r2
  let r4 ← dropLit "from".data r3
  let r5 := r4.dropWhile Char.isWhitespace
  let (spec, _) ← quotedAt r5
  pure (w, spec)

/-- Matcher at a position for the namespace-import regex
"import ws* asterisk ws+ as ws+ (word+) ws+ from ws* quote
(non-quote-plus) quote". -/
def importNamespaceAt (cs : List Char) : Option (String × String) := do
  let r ← dropLit "import".data cs
  let r := r.dropWhile Char.isWhitespace
  let r2 ← dropLit "*".data r
  let r3 ← dropWs1 r2
  let r4 ← dropLit "as".data r3
  let r5 ← dropWs1 r4
  let (w, r6) ← takeWord1 r5
  let r7 ← dropWs1 r6
  let r8 ← dropLit "from".data r7
  let r9 := r8.dropWhile Char.isWhitespace
  let (spec, _) ← quotedAt r9
  pure (w, spec)

/-- Word-boundary test of the regex anchor after an interpolated name: the
boundary holds when exactly one side is a word character.  The character
before the position is the last character of the name (or, for an empty
name, the whitespace consumed just before it). -/
def boundaryAfter (name : String) (r : List Char) : Bool :=
  let lastIsWord :=
    match name.data.reverse with
    | c :: _ => isWordChar c
    | [] => false
  match r with
  | [] => lastIsWord
  | c :: _ => lastIsWord != isWordChar c

/-- Matcher anchored at the line start for the declaration patterns of
findSymbolInFile: "caret (async ws+)? KEYWORD ws+ NAME word-boundary",
where the async prefix is only allowed for the function pattern. -/
def anchoredDeclTest (allowAsync : Bool) (kw : String) (name : String)
    (cs : List Char) : Bool :=
  let r0 :=
    if allowAsync then
      match (do
        let a ← dropLit "async".data cs
        dropWs1 a) with
      | some a => a
      | none => cs
    else cs
  match (do
    let r ← dropLit kw.data r0
    let r ← dropWs1 r
    let r ← dropLit name.data r
    pure r) with
  | some r => boundaryAfter name r
  | none => false

/-- Matcher anchored at the line start for
"caret (?:const|let|var) ws+ NAME word-boundary". -/
def anchoredAltDeclTest (kws : List String) (name : String)
    (cs : List Char) : Bool :=
  kws.any (fun kw => anchoredDeclTest false kw name cs)

/-! ## File system and path model

File reads and stats are the only I/O of the resolution engine.  They are
modelled by an explicit `FileSys`: an association list from path to file
content, plus a list of directory paths (Deno.stat succeeds on both files
and directories, which matters in resolveImportPath).  The std path helpers
are modelled for POSIX-style paths; all concrete instances below use
absolute paths, for which resolution against the working directory is the
identity. -/

/-- The modelled file system of one run. -/
structure FileSys where
  files : List (String × String)
  dirs : List String := []
deriving Repr, DecidableEq

/-- Content of a file, or none when reading would throw. -/
def FileSys.readFile (fs : FileSys) (p : String) : Option String :=
  (fs.files.find? (fun e => e.1 == p)).map (·.2)

/-- Whether Deno.stat succeeds on the path (file or directory). -/
def FileSys.statOk (fs : FileSys) (p : String) : Bool :=
  fs.files.any (fun e => e.1 == p) || fs.dirs.contains p

/-- Whether the path is a file (Deno.stat isFile). -/
def FileSys.isFile (fs : FileSys) (p : String) : Bool :=
  fs.files.any (fun e => e.1 == p)

/-- Resolve dot and dot-dot segments left to right (model of std path
normalization for the slash-separated paths used here). -/
def collapseSegs (segs : List String) : List String :=
  segs.foldl
    (fun acc s =>
      if s = "" || s = "." then acc
      else if s = ".." then acc.dropLast
      else acc ++ [s])
    []

/-- Model of std path normalize for the absolute-style paths used here. -/
def normalizePath (p : String) : String :=
  let segs := collapseSegs (jsSplit p "/")
  let core := joinWith "/" segs
  if jsStartsWith p "/" then "/" ++ core else core

/-- Model of std path join followed by the normalization join performs. -/
def joinPath (a b : String) : String := normalizePath (a ++ "/" ++ b)

/-- Model of std path resolve; the concrete runs below use absolute paths,
for which resolving against the working directory is normalization. -/
def resolvePath (p : String) : String := normalizePath p

/-- Model of std path dirname. -/
def dirname (p : String) : String :=
  let segs := (jsSplit p "/").filter (fun s => s ≠ "")
  let core := joinWith "/" segs.dropLast
  if jsStartsWith p "/" then "/" ++ core
  else if core = "" then "." else core

/-- Model of std path relative for a path lying under the base, the only
shape arising in this development. -/
def relPath (base p : String) : String :=
  if jsStartsWith p (base ++ "/") then
    String.mk (p.data.drop (base.data.length + 1))
  else p

/-! ## Data model (core.ts interfaces)

The source type of a symbol is a union of string literals; it is kept as a
string here, as is the named/default export kind. -/

/-- One resolved, documentable unit (interface ExportedSymbol). -/
structure ExportedSymbol where
  name : String
  type : String
  file : String
  line : Nat
  hasJSDoc : Bool
  jsDocContent : Option String
  exportType : String
deriving Repr, DecidableEq

/-- One traced edge of the re-export graph (interface TracedExport). -/
structure TracedExport where
  originalName : String
  exportedName : String
  sourcePath : String
  line : Nat
deriving Repr, DecidableEq

/-- Aggregated statistics (interface DocumentationStats); byType is an
insertion-ordered association list from kind to (total, documented). -/
structure DocumentationStats where
  total : Nat
  documented : Nat
  undocumented : Nat
  percentage : Nat
  byType : List (String × Nat × Nat)
deriving Repr, DecidableEq

/-- The traversal state of one analysis run: the visited set and the export
map, both threaded through traceExportsFromFile. -/
structure TraceState where
  analyzedFiles : List String
  exportMap : List (String × List TracedExport)
deriving Repr, DecidableEq

/-! ## Line classifier (isDirectExport, extractExportName) -/

/-- Embedding of isDirectExport: the fixed list of leading tokens. -/
def isDirectExport (line : String) : Bool :=
  jsStartsWith line "export function" ||
  jsStartsWith line "export async function" ||
  jsStartsWith line "export class" ||
  jsStartsWith line "export interface" ||
  jsStartsWith line "export type" ||
  jsStartsWith line "export enum" ||
  jsStartsWith line "export const" ||
  jsStartsWith line "export let" ||
  jsStartsWith line "export var" ||
  jsStartsWith line "export default"

/-- Embedding of extractExportName: the regex patterns in source order,
then the literal name "default" when the line contains "export default". -/
def extractExportName (line : String) : Option String :=
  (searchFrom exportFnNameAt line.data) <|>
  (searchFrom (exportKwNameAt "class") line.data) <|>
  (searchFrom (exportKwNameAt "interface") line.data) <|>
  (searchFrom (exportKwNameAt "type") line.data) <|>
  (searchFrom (exportKwNameAt "enum") line.data) <|>
  (searchFrom (exportAltNameAt ["const", "let", "var"]) line.data) <|>
  (if jsIncludes line "export default" then some "default" else none)

/-- Embedding of isExportLine (used only in full-scan mode). -/
def isExportLine (line : String) : Bool :=
  jsStartsWith line "export " ||
  (jsIncludes line "export \x7b" && !(jsIncludes line "export type \x7b")) ||
  jsIncludes line "export default"

/-! ## Declaration locator (findSymbolInFile) -/

/-- The per-line test of findSymbolInFile: a direct export declaring the
name, or one of the six anchored bare-declaration patterns. -/
def findSymbolLine (symbolName : String) : List (Nat × String) → Option Nat
  | [] => none
  | (i, raw) :: rest =>
    let line := jsTrim raw
    if isDirectExport line && extractExportName line == some symbolName then
      some (i + 1)
    else if anchoredDeclTest true "function" symbolName line.data ||
        anchoredDeclTest false "class" symbolName line.data ||
        anchoredDeclTest false "interface" symbolName line.data ||
        anchoredDeclTest false "type" symbolName line.data ||
        anchoredDeclTest false "enum" symbolName line.data ||
        anchoredAltDeclTest ["const", "let", "var"] symbolName line.data then
      some (i + 1)
    else findSymbolLine symbolName rest

/-- Embedding of findSymbolInFile: first matching line number (1-based), or
none when the file is unreadable or no line matches. -/
def findSymbolInFile (fs : FileSys) (filePath symbolName : String) : Option Nat :=
  match fs.readFile filePath with
  | none => none
  | some content => findSymbolLine symbolName (enumFrom 0 (jsSplit content "\n"))

/-! ## Module path resolution (resolveImportPath) -/

/-- Embedding of resolveImportPath.  In the source the candidate inside the
extension loop is the base path itself whenever the base already ends in
".ts" or ".js", so all seven iterations retry the same failing path; the
fold below is that loop verbatim. -/
def resolveImportPath (fs : FileSys) (importPath fromDir : String) : Option String :=
  if jsStartsWith importPath "." then
    let basePath := joinPath fromDir importPath
    if fs.statOk basePath then some (resolvePath basePath)
    else
      [".ts", ".tsx", ".js", ".jsx", ".mjs", "/mod.ts", "/index.ts"].findSome?
        (fun ext =>
          let fullPath :=
            if jsEndsWith basePath ".ts" || jsEndsWith basePath ".js" then
              basePath
            else basePath ++ ext
          if fs.statOk fullPath then some (resolvePath fullPath) else none)
  else none

/-! ## Import source lookup (findImportSource) -/

/-- Split a brace body on commas and trim the items, the common idiom of the
source. -/
def splitCommaTrim (s : String) : List String := (jsSplit s ",").map jsTrim

/-- Whether one item of a named-import list binds the symbol, either as the
imported name or as its alias. -/
def importItemBinds (symbolName : String) (imp : String) : Bool :=
  let parts := (splitAs imp).map jsTrim
  let imported := parts.headD ""
  let alias? := parts[1]?
  imported == symbolName || alias? == some symbolName

/-- The three import-statement checks of findImportSource on one line, in
source order: named imports (returning, with the possibly-none resolution
result, when some item binds the symbol), then default import, then
namespace import.  The outer some means the source function returns; none
means the scan continues with the following lines. -/
def checkImportLine (fs : FileSys) (symbolName currentDir trimmed : String) :
    Option (Option String) :=
  if jsStartsWith trimmed "import " then
    let named :=
      match searchFrom importNamedAt trimmed.data with
      | some (body, spec) =>
        if ((jsSplit body ",").map jsTrim).any (importItemBinds symbolName) then
          some (resolveImportPath fs spec currentDir)
        else none
      | none => none
    match named with
    | some r => some r
    | none =>
      let deflt :=
        match searchFrom importDefaultAt trimmed.data with
        | some (w, spec) =>
          if w == symbolName then some (resolveImportPath fs spec currentDir)
          else none
        | none => none
      match deflt with
      | some r => some r
      | none =>
        match searchFrom importNamespaceAt trimmed.data with
        | some (w2, spec2) =>
          if w2 == symbolName then some (resolveImportPath fs spec2 currentDir)
          else none
        | none => none
  else none

/-- Per-line worker for findImportSource: the first line whose import check
fires decides the result. -/
def findImportLine (fs : FileSys) (symbolName currentDir : String) :
    List String → Option (Option String)
  | [] => none
  | raw :: rest =>
    match checkImportLine fs symbolName currentDir (jsTrim raw) with
    | some r => some r
    | none => findImportLine fs symbolName currentDir rest

/-- Embedding of findImportSource: scan the file content for an import
statement binding the symbol and resolve its module specifier. -/
def findImportSource (fs : FileSys) (fileContent symbolName currentDir : String) :
    Option String :=
  match findImportLine fs symbolName currentDir (jsSplit fileContent "\n") with
  | some r => r
  | none => none

/-! ## The export map (addExport) -/

/-- Lookup in the insertion-ordered export map. -/
def mapFind (m : List (String × List TracedExport)) (k : String) :
    Option (List TracedExport) :=
  (m.find? (fun e => e.1 == k)).map (·.2)

/-- Overwrite an existing key (keeping its position) or append a new one,
the JS Map.set behaviour. -/
def mapSet (m : List (String × List TracedExport)) (k : String)
    (v : List TracedExport) : List (String × List TracedExport) :=
  if m.any (fun e => e.1 == k) then
    m.map (fun e => if e.1 == k then (k, v) else e)
  else m ++ [(k, v)]

/-- Embedding of addExport: ensure the bucket exists, then append unless an
entry with the same (exportedName, sourcePath) pair is already present. -/
def addExport (st : TraceState) (filePath : String) (info : TracedExport) :
    TraceState :=
  let m :=
    if (mapFind st.exportMap filePath).isSome then st.exportMap
    else st.exportMap ++ [(filePath, [])]
  let existing := (mapFind m filePath).getD []
  let isDup := existing.any (fun e =>
    e.exportedName == info.exportedName && e.sourcePath == info.sourcePath)
  if isDup then { st with exportMap := m }
  else { st with exportMap := mapSet m filePath (existing ++ [info]) }

/-- JS "exportedName || originalName": the alias when present and nonempty
(the empty string is falsy), the original name otherwise. -/
def jsOrName (alias? : Option String) (originalName : String) : String :=
  match alias? with
  | some e => if e = "" then originalName else e
  | none => originalName

/-! ## The import/re-export tracer (traceExportsFromFile)

The source function recurses through "export asterisk" chains, guarded by
the visited set.  It is embedded as a single fuel-indexed function over a
job type: a file job models one call of traceExportsFromFile, a lines job
the per-line loop inside it.  Every recursive occurrence uses structurally
smaller fuel, so all runs reduce in the kernel; the theorems below show
that any fuel beyond a bound computed from the file system yields the same
(defined) result, which is the termination argument of the source.  The
rootPath parameter of the source is threaded through unchanged and never
read, so it is omitted. -/

/-- One pending step of the tracer. -/
inductive TraceJob
  | file (filePath : String)
  | lines (filePath content currentDir : String) (rest : List (Nat × String))

/-- Record one item of a selective re-export list (the with-from branch):
split on "as", locate the declaration, fall back to the re-export's own
line number. -/
def addSelectiveExport (fs : FileSys) (filePath resolvedPath : String)
    (i : Nat) (st : TraceState) (item : String) : TraceState :=
  let parts := (splitAs item).map jsTrim
  let originalName := parts.headD ""
  let exportedName := jsOrName parts[1]? originalName
  let lineNum := findSymbolInFile fs resolvedPath originalName
  addExport st filePath
    { originalName, exportedName, sourcePath := resolvedPath,
      line := lineNum.getD (i + 1) }

/-- Record one item of a no-from export list: find the import that bound
the name, or treat it as locally declared. -/
def addLocalExport (fs : FileSys) (filePath content currentDir : String)
    (i : Nat) (st : TraceState) (item : String) : TraceState :=
  let parts := (splitAs item).map jsTrim
  let originalName := parts.headD ""
  let exportedName := jsOrName parts[1]? originalName
  match findImportSource fs content originalName currentDir with
  | some importSource =>
    let lineNum := findSymbolInFile fs importSource originalName
    addExport st filePath
      { originalName, exportedName, sourcePath := importSource,
        line := lineNum.getD (i + 1) }
  | none =>
    let lineNum := findSymbolInFile fs filePath originalName
    addExport st filePath
      { originalName, exportedName, sourcePath := filePath,
        line := lineNum.getD (i + 1) }

/-- The resolved target of an export-asterisk line: present exactly when
the source loop enters its recursive branch, that is when the line has a
re-export prefix, a from clause, a resolvable specifier, and the
export-asterisk form. -/
def starTarget (fs : FileSys) (trimmed currentDir : String) : Option String :=
  if jsStartsWith trimmed "export *" || jsStartsWith trimmed "export \x7b" ||
      jsStartsWith trimmed "export type \x7b" then
    match reFromSpec trimmed with
    | some importPath =>
      match resolveImportPath fs importPath currentDir with
      | some resolvedPath =>
        if jsStartsWith trimmed "export *" then some resolvedPath else none
      | none => none
    | none => none
  else none

/-- The state effect of one line of the source loop in every branch except
the export-asterisk recursion (which is the starTarget-is-some case of
traceGo below): selective re-exports with a from clause, no-from export
lists, direct export lines, and the many no-contribution cases.  The
branch nesting mirrors the source; the export-asterisk leaf inside is
unreachable when starTarget is none and returns the state unchanged. -/
def lineEffect (fs : FileSys) (filePath content currentDir : String) (i : Nat)
    (trimmed : String) (st : TraceState) : TraceState :=
  if jsStartsWith trimmed "export *" || jsStartsWith trimmed "export \x7b" ||
      jsStartsWith trimmed "export type \x7b" then
    match reFromSpec trimmed with
    | some importPath =>
      match resolveImportPath fs importPath currentDir with
      | some resolvedPath =>
        if jsStartsWith trimmed "export *" then st
        else
          match searchFrom (braceInnerAt true) trimmed.data with
          | some body =>
            (splitCommaTrim body).foldl
              (addSelectiveExport fs filePath resolvedPath i) st
          | none => st
      | none => st
    | none =>
      if jsStartsWith trimmed "export \x7b" ||
          jsStartsWith trimmed "export type \x7b" then
        match searchFrom (braceInnerAt true) trimmed.data with
        | some body =>
          (splitCommaTrim body).foldl
            (addLocalExport fs filePath content currentDir i) st
        | none => st
      else st
  else if isDirectExport trimmed then
    match extractExportName trimmed with
    | some name =>
      addExport st filePath
        { originalName := name, exportedName := name,
          sourcePath := filePath, line := i + 1 }
    | none => st
  else st

/-- The fuel-indexed tracer.  A file job is one call of the source
function: return when visited, mark visited, read, then scan the lines.  A
lines job handles one line and continues; the export-asterisk branch
recurses into the target file and then copies its bucket, every other line
contributes through lineEffect. -/
def traceGo (fs : FileSys) : Nat → TraceJob → TraceState → Option TraceState
  | 0, _, _ => none
  | fuel + 1, .file filePath, st =>
    if st.analyzedFiles.contains filePath then some st
    else
      let st1 := { st with analyzedFiles := filePath :: st.analyzedFiles }
      match fs.readFile filePath with
      | none => some st1
      | some content =>
        traceGo fs fuel (.lines filePath content (dirname filePath)
          (enumFrom 0 (jsSplit content "\n"))) st1
  | _ + 1, .lines _ _ _ [], st => some st
  | fuel + 1, .lines filePath content currentDir ((i, raw) :: rest2), st =>
    let trimmed := jsTrim raw
    match starTarget fs trimmed currentDir with
    | some resolvedPath =>
      match traceGo fs fuel (.file resolvedPath) st with
      | none => none
      | some st2 =>
        let sourceExports := (mapFind st2.exportMap resolvedPath).getD []
        traceGo fs fuel (.lines filePath content currentDir rest2)
          (sourceExports.foldl (fun s e => addExport s filePath e) st2)
    | none =>
      traceGo fs fuel (.lines filePath content currentDir rest2)
        (lineEffect fs filePath content currentDir i trimmed st)

/-- Weight of one file entry in the fuel bound: its line count plus two
(one step to enter the file, one slack step). -/
def fileWeight (e : String × String) : Nat := (jsSplit e.2 "\n").length + 2

/-- Fuel that suffices for any trace over the file system (shown below). -/
def fsBound (fs : FileSys) : Nat := (fs.files.map fileWeight).sum + 1

/-- Embedding of traceExportsFromFile, at the given fuel. -/
def traceExportsFromFile (fs : FileSys) (fuel : Nat) (filePath : String)
    (st : TraceState) : Option TraceState :=
  traceGo fs fuel (.file filePath) st

/-- Total weight of the files not yet visited: the fuel still needed for
any trace continuing from the visited set. -/
def unvisitedWeight (analyzed : List String) : List (String × String) → Nat
  | [] => 0
  | e :: rest =>
    (if analyzed.contains e.1 then 0 else fileWeight e) +
      unvisitedWeight analyzed rest

/-- Fuel cost of a pending job: the unvisited weight, plus the remaining
line count for a lines job. -/
def jobCost (fs : FileSys) : TraceJob → TraceState → Nat
  | .file _, st => unvisitedWeight st.analyzedFiles fs.files
  | .lines _ _ _ rest, st => unvisitedWeight st.analyzedFiles fs.files + rest.length

/-! ## Documentation-comment blocks and symbol synthesis
(analyzeFileForJSDoc) -/

/-- JS Map.set on the line-to-documentation map: overwrite in place or
append. -/
def blocksSet (blocks : List (Nat × String)) (k : Nat) (v : String) :
    List (Nat × String) :=
  if blocks.any (fun e => e.1 == k) then
    blocks.map (fun e => if e.1 == k then (k, v) else e)
  else blocks ++ [(k, v)]

/-- JS Map.get on the line-to-documentation map. -/
def blocksGet (blocks : List (Nat × String)) (k : Nat) : Option String :=
  (blocks.find? (fun e => e.1 == k)).map (·.2)

/-- JS Map.has on the line-to-documentation map. -/
def blocksHas (blocks : List (Nat × String)) (k : Nat) : Bool :=
  blocks.any (fun e => e.1 == k)

/-- The association loop of analyzeFileForJSDoc: walk forward from the line
after the closed block, skip blank and line-comment lines, and on the first
other line, when it is export-like, bind the content to it and to the five
following line indices (bounded by the line count); in every case stop at
that first line. -/
def assocDoc (len : Nat) (content : String) (blocks : List (Nat × String)) :
    List (Nat × String) → List (Nat × String)
  | [] => blocks
  | (j, raw) :: rest =>
    let nextLine := jsTrim raw
    if nextLine ≠ "" && !(jsStartsWith nextLine "//") then
      if isDirectExport nextLine || jsStartsWith nextLine "export " then
        let b := blocksSet blocks j content
        [j + 1, j + 2, j + 3, j + 4, j + 5].foldl
          (fun b2 k => if k < len then blocksSet b2 k content else b2) b
      else blocks
    else assocDoc len content blocks rest

/-- The association loop of analyzeFile (full-scan mode): bind the content
to the first non-blank, non-line-comment line, whatever it is, with no
window and no module-tag filtering. -/
def assocDocSimple (content : String) (blocks : List (Nat × String)) :
    List (Nat × String) → List (Nat × String)
  | [] => blocks
  | (j, raw) :: rest =>
    if jsTrim raw ≠ "" && !(jsStartsWith (jsTrim raw) "//") then
      blocksSet blocks j content
    else assocDocSimple content blocks rest

/-- The multi-line gathering loop shared by the declaration branches: append
up to nine following trimmed lines, stopping after a line whose raw text
contains a brace or a semicolon. -/
def gatherGo : Nat → List String → String → String
  | 0, _, acc => acc
  | _ + 1, [], acc => acc
  | fuel + 1, l :: rest, acc =>
    let acc2 := acc ++ " " ++ jsTrim l
    if jsIncludes l "\x7b" || jsIncludes l ";" then acc2
    else gatherGo fuel rest acc2

/-- Build the full declaration text for a line: the trimmed line itself
when it already contains a brace or semicolon, otherwise the joined
lookahead of at most nine further lines. -/
def gatherDecl (restLines : List String) (trimmed : String) : String :=
  if !(jsIncludes trimmed "\x7b") && !(jsIncludes trimmed ";") then
    gatherGo 9 restLines trimmed
  else trimmed

/-- Embedding of parseExportedSymbol: the if-chain of core.ts in source
order.  A branch that matches but extracts no name leaves the name empty,
and the final guard turns an empty name into null. -/
def parseExportedSymbol (line : String) (lineIndex : Nat) (filePath : String)
    (jsDocBlocks : List (Nat × String)) : Option ExportedSymbol :=
  let trimmed := jsTrim line
  let hasJSDoc := blocksHas jsDocBlocks lineIndex
  let jsDocContent := blocksGet jsDocBlocks lineIndex
  let mk : String → String → String → Option ExportedSymbol :=
    fun name type exportType =>
      if name ≠ "" then
        some { name, type, file := filePath, line := lineIndex + 1,
               hasJSDoc, jsDocContent, exportType }
      else none
  if jsIncludes trimmed "export default" then
    if jsIncludes trimmed "function" then
      mk ((kwName "function" trimmed).getD "default") "function" "default"
    else if jsIncludes trimmed "class" then
      mk ((kwName "class" trimmed).getD "default") "class" "default"
    else mk "default" "variable" "default"
  else if jsStartsWith trimmed "export function" ||
      jsStartsWith trimmed "export async function" then
    mk ((kwName "function" trimmed).getD "") "function" "named"
  else if jsStartsWith trimmed "export class" then
    mk ((kwName "class" trimmed).getD "") "class" "named"
  else if jsStartsWith trimmed "export interface" then
    mk ((kwName "interface" trimmed).getD "") "interface" "named"
  else if jsStartsWith trimmed "export type" then
    mk ((kwName "type" trimmed).getD "") "type" "named"
  else if jsStartsWith trimmed "export enum" then
    mk ((kwName "enum" trimmed).getD "") "enum" "named"
  else if jsStartsWith trimmed "export const" ||
      jsStartsWith trimmed "export let" || jsStartsWith trimmed "export var" then
    mk ((searchFrom (kwAltNameAt ["const", "let", "var"]) trimmed.data).getD "")
      (if jsIncludes trimmed "const" then "const" else "variable") "named"
  else if jsIncludes trimmed "export \x7b" && !(jsIncludes trimmed "from") then
    match searchFrom (braceInnerAt false) trimmed.data with
    | some body =>
      let exports := (jsSplit body ",").map jsTrim
      mk ((splitAs (exports.headD "")).headD "") "variable" "named"
    | none => none
  else if jsStartsWith trimmed "class " then
    mk ((kwName "class" trimmed).getD "") "class" "named"
  else if jsStartsWith trimmed "function " ||
      jsStartsWith trimmed "async function " then
    mk ((kwName "function" trimmed).getD "") "function" "named"
  else if jsStartsWith trimmed "interface " then
    mk ((kwName "interface" trimmed).getD "") "interface" "named"
  else if jsStartsWith trimmed "type " then
    mk ((kwName "type" trimmed).getD "") "type" "named"
  else if jsStartsWith trimmed "enum " then
    mk ((kwName "enum" trimmed).getD "") "enum" "named"
  else if jsStartsWith trimmed "const " || jsStartsWith trimmed "let " ||
      jsStartsWith trimmed "var " then
    mk ((searchFrom (kwAltNameAt ["const", "let", "var"]) trimmed.data).getD "")
      (if jsStartsWith trimmed "const" then "const" else "variable") "named"
  else none

/-- Scanner state of one file in analyzeFileForJSDoc: the block map, the
open block being accumulated, and the symbols collected so far. -/
structure JsdocScan where
  blocks : List (Nat × String)
  current : List String
  symbols : List ExportedSymbol
deriving Repr, DecidableEq

/-- The documentation-block tracking of one line of analyzeFileForJSDoc.
The boolean is true exactly when the source executes continue (a multi-line
block closing with the module tag), skipping the declaration checks of that
line. -/
def jsdocTrack (rest : List (Nat × String)) (len : Nat) (raw : String)
    (st : JsdocScan) : JsdocScan × Bool :=
  let trimmed := jsTrim raw
  if jsStartsWith trimmed "/**" then
    if jsEndsWith trimmed "*/" then
      if !(jsIncludes trimmed "@module") then
        ({ st with blocks := assocDoc len trimmed st.blocks rest }, false)
      else (st, false)
    else ({ st with current := [trimmed] }, false)
  else if st.current.length > 0 then
    let current := st.current ++ [raw]
    if jsEndsWith trimmed "*/" then
      let content := joinWith "\n" current
      if jsIncludes content "@module" then ({ st with current := [] }, true)
      else
        let blocks2 := assocDoc len content st.blocks rest
        ({ st with current := [], blocks := blocks2 }, false)
    else ({ st with current := current }, false)
  else (st, false)

/-- The bare-declaration patterns scanned by prefix in analyzeFileForJSDoc
(note: plain startsWith, with no word boundary after the name). -/
def declKeywords : List String :=
  ["class", "function", "const", "let", "var", "interface", "type", "enum"]

/-- The declaration checks of one line of analyzeFileForJSDoc: a direct
export line synthesizes a symbol for the first traced export whose original
name matches; any other line synthesizes one symbol per traced export whose
name, preceded by a declaration keyword, is a prefix of the line. -/
def jsdocSymbols (restLines : List String) (sourcePath relativePath : String)
    (sourceExports : List TracedExport) (i : Nat) (trimmed : String)
    (st : JsdocScan) : JsdocScan :=
  if isDirectExport trimmed then
    match extractExportName (gatherDecl restLines trimmed) with
    | some lineExportName =>
      match sourceExports.find? (fun exp =>
          exp.originalName == lineExportName && exp.sourcePath == sourcePath) with
      | some exp =>
        match parseExportedSymbol (gatherDecl restLines trimmed) i relativePath
            st.blocks with
        | some sym =>
          { st with symbols := st.symbols ++ [{ sym with name := exp.exportedName }] }
        | none => st
      | none => st
    | none => st
  else
    sourceExports.foldl
      (fun s exp =>
        if declKeywords.any (fun kw =>
            jsStartsWith trimmed (kw ++ " " ++ exp.originalName)) then
          match parseExportedSymbol (gatherDecl restLines trimmed) i relativePath
              s.blocks with
          | some sym =>
            { s with symbols := s.symbols ++ [{ sym with name := exp.exportedName }] }
          | none => s
        else s)
      st

/-- The per-line loop of analyzeFileForJSDoc over one source file. -/
def jsdocLoop (len : Nat) (sourcePath relativePath : String)
    (sourceExports : List TracedExport) :
    List (Nat × String) → JsdocScan → JsdocScan
  | [], st => st
  | (i, raw) :: rest, st =>
    let tracked := jsdocTrack rest len raw st
    let st2 :=
      if tracked.2 then tracked.1
      else
        jsdocSymbols (rest.map (·.2)) sourcePath relativePath sourceExports i
          (jsTrim raw) tracked.1
    jsdocLoop len sourcePath relativePath sourceExports rest st2

/-- The deduplication key of analyzeFileForJSDoc. -/
def jsdocKey (e : TracedExport) : String :=
  e.sourcePath ++ ":" ++ e.exportedName ++ ":" ++ e.originalName

/-- Append a traced export to its source-file group, creating the group at
the end in insertion order. -/
def groupAdd (m : List (String × List TracedExport)) (exp : TracedExport) :
    List (String × List TracedExport) :=
  if m.any (fun e => e.1 == exp.sourcePath) then
    m.map (fun e => if e.1 == exp.sourcePath then (e.1, e.2 ++ [exp]) else e)
  else m ++ [(exp.sourcePath, [exp])]

/-- One step of the grouping-and-deduplication pass of analyzeFileForJSDoc:
skip a traced export whose key was already seen, group the rest by source
file. -/
def groupStep (acc : List (String × List TracedExport) × List String)
    (exp : TracedExport) : List (String × List TracedExport) × List String :=
  if acc.2.contains (jsdocKey exp) then acc
  else (groupAdd acc.1 exp, jsdocKey exp :: acc.2)

/-- The grouping-and-deduplication pass of analyzeFileForJSDoc. -/
def groupBySource (exports : List TracedExport) :
    List (String × List TracedExport) :=
  (exports.foldl groupStep ([], [])).1

/-- Embedding of analyzeFileForJSDoc: group the traced exports by source
file, scan each readable source file once, and collect the synthesized
symbols; unreadable files contribute nothing. -/
def analyzeFileForJSDoc (fs : FileSys) (exports : List TracedExport)
    (rootPath : String) : List ExportedSymbol :=
  (groupBySource exports).foldl
    (fun symbols entry =>
      match fs.readFile entry.1 with
      | none => symbols
      | some content =>
        let lines := jsSplit content "\n"
        let res := jsdocLoop lines.length entry.1 (relPath rootPath entry.1)
          entry.2 (enumFrom 0 lines) ⟨[], [], []⟩
        symbols ++ res.symbols)
    []

/-! ## Full-scan mode (analyzeFile, analyzeAllFiles, findSourceFiles)

analyzeFile reads the file and stats the root with no try/catch, so both
are modelled as Except-throwing; its documentation tracking has no
module-tag filtering, no export-likeness requirement, and no lookahead
window, and its symbol check passes the single trimmed line with no
multi-line gathering. -/

/-- The per-line loop of analyzeFile. -/
def analyzeFileLoop (relativePath : String) :
    List (Nat × String) → List (Nat × String) → List String →
    List ExportedSymbol → List ExportedSymbol
  | [], _, _, symbols => symbols
  | (i, raw) :: rest, blocks, current, symbols =>
    let trimmed := jsTrim raw
    let tracked :=
      if jsStartsWith trimmed "/**" then
        if jsEndsWith trimmed "*/" then (assocDocSimple trimmed blocks rest, current)
        else (blocks, [trimmed])
      else if current.length > 0 then
        let current2 := current ++ [raw]
        if jsEndsWith trimmed "*/" then
          (assocDocSimple (joinWith "\n" current2) blocks rest, [])
        else (blocks, current2)
      else (blocks, current)
    let symbols2 :=
      if isExportLine trimmed then
        match parseExportedSymbol trimmed i relativePath tracked.1 with
        | some sym => symbols ++ [sym]
        | none => symbols
      else symbols
    analyzeFileLoop relativePath rest tracked.1 tracked.2 symbols2

/-- Embedding of analyzeFile: read the file (throwing when missing), stat
the root to pick the base of the reported relative path (throwing when the
root is missing), and scan the lines. -/
def analyzeFile (fs : FileSys) (cwd rootPath filePath : String) :
    Except Unit (List ExportedSymbol) :=
  match fs.readFile filePath with
  | none => .error ()
  | some content =>
    if !(fs.statOk rootPath) then .error ()
    else
      let relativePath :=
        if fs.isFile rootPath then relPath cwd filePath
        else relPath rootPath filePath
      .ok (analyzeFileLoop relativePath (enumFrom 0 (jsSplit content "\n")) [] [] [])

/-- Embedding of findSourceFiles.  The recursive directory walk with its
extension allow-list and exclusion patterns is the out-of-scope
collaborator of the specification and is abstracted as the walkFiles
argument; the unguarded stat of the root is the throwing case. -/
def findSourceFiles (fs : FileSys) (rootPath : String)
    (walkFiles : List String) : Except Unit (List String) :=
  if fs.isFile rootPath then
    .ok (if [".ts", ".tsx", ".js", ".jsx", ".mjs"].any
        (fun ext => jsEndsWith rootPath ext) then [rootPath] else [])
  else if fs.dirs.contains rootPath then .ok walkFiles
  else .error ()

/-- Embedding of analyzeAllFiles: analyze every enumerated file, with no
catching of read errors. -/
def analyzeAllFiles (fs : FileSys) (cwd rootPath : String)
    (walkFiles : List String) : Except Unit (List ExportedSymbol) := do
  let files ← findSourceFiles fs rootPath walkFiles
  files.foldlM
    (fun symbols f => do
      let s ← analyzeFile fs cwd rootPath f
      pure (symbols ++ s))
    []

/-! ## Statistics aggregator (calculateStats) -/

/-- One step of the per-kind aggregation: create the entry on first sight,
then bump the totals. -/
def bumpType (byType : List (String × Nat × Nat)) (t : String) (doc : Bool) :
    List (String × Nat × Nat) :=
  if byType.any (fun e => e.1 == t) then
    byType.map (fun e =>
      if e.1 == t then (e.1, e.2.1 + 1, e.2.2 + (if doc then 1 else 0)) else e)
  else byType ++ [(t, 1, if doc then 1 else 0)]

/-- Exact-rational model of calculateStats.  The source computes
Math.round((documented / total) * 100); on exact rationals Math.round
(nearest integer, ties toward positive infinity) is the floor of
(100 documented / total) + 1/2, which equals the integer division
(200 documented + total) / (2 total).  The IEEE binary64 evaluation the
source actually performs can fall below this at half-integer ties of the
quotient, where the rounded double product lands just under the tie: with
23 documented of 40 the program yields 57 while this exact model yields 58.
The IEEE-faithful model is calculateStatsJS below; this exact model is kept
for the threshold analysis of the reported percentage. -/
def calculateStats (symbols : List ExportedSymbol) : DocumentationStats :=
  let total := symbols.length
  let documented := (symbols.filter (fun s => s.hasJSDoc)).length
  let undocumented := (symbols.filter (fun s => !s.hasJSDoc)).length
  let percentage :=
    if total > 0 then (200 * documented + total) / (2 * total) else 100
  let byType := symbols.foldl (fun bt s => bumpType bt s.type s.hasJSDoc) []
  { total, documented, undocumented, percentage, byType }

/-! ## IEEE binary64 model of the percentage computation

The percentage line of calculateStats divides two JavaScript array lengths
and multiplies by 100 in IEEE binary64 arithmetic before Math.round is
applied.  The model below implements binary64 round-to-nearest, ties-to-even
on exact rationals: a positive value is rounded to the nearest integer
multiple of 2 raised to (floor(log2 value) - 52), ties going to the even
multiple, which is the IEEE-754 correctly rounded result for the normal
range (the only range these computations visit).  All pieces are structural
recursions or case splits on integer data, so concrete runs evaluate in the
kernel. -/

/-- Number of binary digits of a natural number (0 for 0), by fuelled
structural recursion on halving; the fuel n itself always suffices. -/
def bitLenGo : Nat → Nat → Nat
  | _, 0 => 0
  | 0, _ + 1 => 0
  | fuel + 1, n + 1 => bitLenGo fuel ((n + 1) / 2) + 1

/-- Bit length of a natural number: bitLen 0 = 0, and for positive n the
unique L with 2 to the (L-1) at most n below 2 to the L. -/
def bitLen (n : Nat) : Nat := bitLenGo n n

/-- Floor of a rational, computed on the numerator and denominator (the
denominator is positive, so Euclidean division is floor division). -/
def qfloor (q : ℚ) : ℤ := q.num / q.den

/-- Round a rational to the nearest integer, ties to the even integer:
the rounding IEEE-754 applies at every significand boundary. -/
def rNE (x : ℚ) : ℤ :=
  if x - qfloor x < 1/2 then qfloor x
  else if (1 : ℚ)/2 < x - qfloor x then qfloor x + 1
  else if qfloor x % 2 = 0 then qfloor x else qfloor x + 1

/-- Two raised to an integer power, as a rational. -/
def qpow2 (e : ℤ) : ℚ :=
  if 0 ≤ e then ((2 ^ e.toNat : ℕ) : ℚ) else 1 / ((2 ^ (-e).toNat : ℕ) : ℚ)

/-- Floor of the base-2 logarithm of a positive rational: the bit lengths
of numerator and denominator determine it up to one, and a single
comparison settles which. -/
def qlog2 (q : ℚ) : ℤ :=
  if qpow2 ((bitLen q.num.toNat : ℤ) - (bitLen q.den : ℤ)) ≤ q then
    (bitLen q.num.toNat : ℤ) - (bitLen q.den : ℤ)
  else (bitLen q.num.toNat : ℤ) - (bitLen q.den : ℤ) - 1

/-- Round a positive rational to the nearest IEEE binary64 value
(round to nearest, ties to even): the nearest integer multiple of
2 ^ (qlog2 q - 52), ties to the even multiple.  Inputs at most 0 (which the
percentage computation never produces) are mapped to 0; the model ignores
overflow and subnormals, far outside the range these computations visit. -/
def roundDouble (q : ℚ) : ℚ :=
  if q ≤ 0 then 0
  else ((rNE (q / qpow2 (qlog2 q - 52)) : ℤ) : ℚ) * qpow2 (qlog2 q - 52)

/-- The binary64 value holding a JavaScript array length: exact below
2 ^ 53, correctly rounded above. -/
def natToDouble (n : Nat) : ℚ := roundDouble n

/-- IEEE binary64 division: the correctly rounded exact quotient. -/
def jsDiv (x y : ℚ) : ℚ := roundDouble (x / y)

/-- IEEE binary64 multiplication: the correctly rounded exact product. -/
def jsMul (x y : ℚ) : ℚ := roundDouble (x * y)

/-- ECMAScript Math.round on the exact value of a double: the closest
integral value, ties toward positive infinity — for the non-negative
arguments arising here, the floor of the exact value plus one half.  (The
specification rounds the exact value; it does not add 0.5 in binary64.) -/
def jsMathRound (x : ℚ) : ℤ := qfloor (x + 1/2)

/-- The percentage the source computes for a non-empty symbol list:
Math.round((documented / total) * 100) with the division and the
multiplication evaluated in IEEE binary64. -/
def jsPercentage (documented total : Nat) : ℤ :=
  jsMathRound
    (jsMul (jsDiv (natToDouble documented) (natToDouble total)) (natToDouble 100))

/-- IEEE-faithful embedding of calculateStats: identical to calculateStats
except that the percentage of a non-empty list is the binary64 evaluation
of Math.round((documented / total) * 100) instead of its exact-rational
counterpart. -/
def calculateStatsJS (symbols : List ExportedSymbol) : DocumentationStats :=
  let total := symbols.length
  let documented := (symbols.filter (fun s => s.hasJSDoc)).length
  let undocumented := (symbols.filter (fun s => !s.hasJSDoc)).length
  let percentage :=
    if total > 0 then (jsPercentage documented total).toNat else 100
  let byType := symbols.foldl (fun bt s => bumpType bt s.type s.hasJSDoc) []
  { total, documented, undocumented, percentage, byType }

/-! ## Entry-point analysis (analyzeFromExports, analyzeDirectory) -/

/-- The exports field of the configuration: a single path, or a mapping
whose values are paths (an insertion-ordered association list, matching the
JS object with string keys). -/
inductive ExportsField
  | str (s : String)
  | obj (m : List (String × String))
deriving Repr, DecidableEq

/-- Object.values for the exports field, in insertion order; a plain string
is a one-element list (the source pushes it directly). -/
def exportsValues : ExportsField → List String
  | .str s => [s]
  | .obj m => m.map (·.2)

/-- The deduplication key of analyzeFromExports: source path, original name
and exported name, joined as the source template does. -/
def traceKey (e : TracedExport) : String :=
  e.sourcePath ++ ":" ++ e.originalName ++ ":" ++ e.exportedName

/-- The deduplication pass of analyzeFromExports over the flattened export
map: keep the first traced export of each key, in insertion order. -/
def dedupByKey : List TracedExport → List String → List TracedExport
  | [], _ => []
  | e :: rest, seen =>
    if seen.contains (traceKey e) then dedupByKey rest seen
    else e :: dedupByKey rest (traceKey e :: seen)

/-- The unique traced exports collected from the export map, in the order
the source iterates the map entries and their buckets. -/
def uniqueExportsOf (exportMap : List (String × List TracedExport)) :
    List TracedExport :=
  dedupByKey ((exportMap.map (·.2)).flatten) []

/-- Result of analyzeFromExports; the source mutates the symbols array, the
visited set and the export map in place, returned here as one record. -/
structure ExportsAnalysis where
  symbols : List ExportedSymbol
  analyzedFiles : List String
  exportMap : List (String × List TracedExport)
deriving Repr, DecidableEq

/-- One entry-point trace of the loop of analyzeFromExports, at the
sufficient fuel fsBound; the theorems below show the tracer is always
defined at that fuel, so the getD branch is never taken. -/
def traceStep (fs : FileSys) (rootPath : String) (st : TraceState)
    (exportPath : String) : TraceState :=
  (traceExportsFromFile fs (fsBound fs) (joinPath rootPath exportPath) st).getD st

/-- Embedding of analyzeFromExports: trace every entry path, deduplicate
the traced exports, and synthesize the symbols. -/
def analyzeFromExports (fs : FileSys) (rootPath : String)
    (exports : ExportsField) : ExportsAnalysis :=
  let st := (exportsValues exports).foldl (traceStep fs rootPath) ⟨[], []⟩
  let uniq := uniqueExportsOf st.exportMap
  { symbols := analyzeFileForJSDoc fs uniq rootPath,
    analyzedFiles := st.analyzedFiles, exportMap := st.exportMap }

/-- The configuration object (interface DenoConfig); the unused name and
version fields are omitted.  Loading and JSON decoding of the
configuration file is the out-of-scope collaborator of the specification,
so the loaded configuration is a parameter of analyzeDirectory here. -/
structure DenoConfig where
  exports : Option ExportsField
deriving Repr, DecidableEq

/-- JS truthiness of the exports field, as tested by the branch of
analyzeDirectory: undefined and the empty string are falsy, every other
string and every object (even an empty one) is truthy. -/
def exportsTruthy : Option ExportsField → Bool
  | none => false
  | some (.str s) => s ≠ ""
  | some (.obj _) => true

/-- The result record of analyzeDirectory (interface AnalysisResult). -/
structure AnalysisResult where
  path : String
  hasDenoJson : Bool
  hasExports : Bool
  exportPath : Option String
  symbols : List ExportedSymbol
  stats : DocumentationStats
deriving Repr, DecidableEq

/-- Embedding of analyzeDirectory.  The unguarded stat of the root inside
the configuration loader is the one throwing step before the branch; in
exports mode the tracer and symbol synthesis never throw, in full-scan mode
read errors propagate as in analyzeAllFiles. -/
def analyzeDirectory (fs : FileSys) (cwd targetPath : String)
    (config : Option DenoConfig) (walkFiles : List String) :
    Except Unit AnalysisResult :=
  let rootPath := resolvePath targetPath
  if !(fs.statOk rootPath) then .error ()
  else
    let exports? := config.bind (·.exports)
    let hasDenoJson := config.isSome
    let hasExports := exportsTruthy exports?
    let exportPath : Option String :=
      match exports? with
      | some (.str s) => some s
      | some (.obj m) => (m.map (·.2)).head?
      | none => none
    match exports?, exportsTruthy exports? with
    | some e, true =>
      let a := analyzeFromExports fs rootPath e
      .ok { path := rootPath, hasDenoJson, hasExports, exportPath,
            symbols := a.symbols, stats := calculateStats a.symbols }
    | _, _ => do
      let symbols ← analyzeAllFiles fs cwd rootPath walkFiles
      pure { path := rootPath, hasDenoJson, hasExports, exportPath,
             symbols, stats := calculateStats symbols }

/-! ## Derived notions used by the theorems -/

/-- The quadruple view of a traced export, for readable statements. -/
def traceQuad (e : TracedExport) : String × String × String × Nat :=
  (e.originalName, e.exportedName, e.sourcePath, e.line)

/-- Whether no entry of a documentation-block map carries the module tag. -/
def noModuleBlocks (blocks : List (Nat × String)) : Bool :=
  blocks.all (fun e => !(jsIncludes e.2 "@module"))

/-- Replace the line field of a traced export, keeping the identifying
fields; used to state that the recorded line numbers (including the
fallback line of an unlocatable declaration) never influence symbol
synthesis. -/
def lineMap (f : TracedExport → Nat) (e : TracedExport) : TracedExport :=
  { e with line := f e }

/-- The image of lineMap on one group of the grouped export map. -/
def groupMap (f : TracedExport → Nat) (kv : String × List TracedExport) :
    String × List TracedExport :=
  (kv.1, kv.2.map (lineMap f))

/-! ## Concrete file systems used as inputs of the theorems -/

/-- A module whose single export name is declared twice (the overload-
signature idiom). -/
def fsOverload : FileSys :=
  ⟨[("/r1/mod.ts",
     "export function f(x: number): number;\nexport function f(x: string): string;")], []⟩

/-- An entry renaming a symbol that the target module does not declare. -/
def fsGhost : FileSys :=
  ⟨[("/r3/mod.ts", "export \x7b ghost as bar \x7d from \"./m.ts\";"),
    ("/r3/m.ts", "// header\n\nexport function foo(x) \x7b\n\x7d")], []⟩

/-- An entry renaming a symbol that the target module declares at line 3. -/
def fsRename : FileSys :=
  ⟨[("/r3b/mod.ts", "export \x7b foo as bar \x7d from \"./m.ts\";"),
    ("/r3b/m.ts", "// header\n\nexport function foo(x) \x7b\n\x7d")], []⟩

/-- A root directory whose configured entry file does not exist. -/
def fsEntryMissing : FileSys := ⟨[], ["/r4"]⟩

/-- Two files re-exporting everything from each other. -/
def fsCycle : FileSys :=
  ⟨[("/r5/A.ts", "export * from \"./B.ts\";\nexport const a = 1;"),
    ("/r5/B.ts", "export * from \"./A.ts\";\nexport const b = 2;")], []⟩

/-- A file whose module-level documentation block precedes an export. -/
def fsModuleDoc : FileSys :=
  ⟨[("/r6/a.ts", "/** @module */\nexport function f() \x7b\x7d")], ["/r6"]⟩

/-- An entry re-exporting a name with no declaration in the target file. -/
def fsNoDecl : FileSys :=
  ⟨[("/r7/mod.ts", "export \x7b ghost \x7d from \"./lib.ts\";"),
    ("/r7/lib.ts", "// nothing here")], []⟩

/-- A file consisting of one block-export line without a from clause. -/
def fsBlock : FileSys := ⟨[("/r9/a.ts", "export \x7b a, b as c \x7d")], ["/r9"]⟩

/-- A root with two source files, used with a mapping-valued exports
field. -/
def fsMapping : FileSys :=
  ⟨[("/r10/a.ts", "export const x = 1;"), ("/r10/b.ts", "export const y = 2;")],
   ["/r10"]⟩

/-- The mapping-valued exports field used with fsMapping. -/
def mapExports : List (String × String) := [("a", "./a.ts"), ("b", "./b.ts")]

/-- A documented symbol, for the statistics counterexample. -/
def docSym : ExportedSymbol :=
  ⟨"d", "function", "a.ts", 1, true, some "/** d */", "named"⟩

/-- An undocumented symbol, for the statistics counterexample. -/
def undocSym : ExportedSymbol := ⟨"u", "function", "a.ts", 2, false, none, "named"⟩

/-- A symbol list of 250 entries of which 249 are documented; the exact
quotient 99.6 rounds to 100 (also under IEEE doubles, where the computed
value is far from a rounding tie). -/
def c2Symbols : List ExportedSymbol := List.replicate 249 docSym ++ [undocSym]

/-- A symbol list of 40 entries of which 23 are documented: the exact
quotient 57.5 sits on a half-integer tie, and the binary64 evaluation of
(23/40)*100 falls just below it, so Math.round returns 57 where exact
half-up rounding returns 58. -/
def c8Symbols : List ExportedSymbol :=
  List.replicate 23 docSym ++ List.replicate 17 undocSym

/-! ## General lemmas about the statistics aggregator -/

lemma length_filter_add_length_filter_not (p : α → Bool) (l : List α) :
    (l.filter p).length + (l.filter (fun a => !p a)).length = l.length := by
  induction l with
  | nil => rfl
  | cons a t ih => cases h : p a <;> simp [List.filter_cons, h] <;> omega

lemma calculateStats_total (l : List ExportedSymbol) :
    (calculateStats l).total = l.length := rfl

lemma calculateStats_documented (l : List ExportedSymbol) :
    (calculateStats l).documented = (l.filter (fun s => s.hasJSDoc)).length := rfl

lemma calculateStats_undocumented (l : List ExportedSymbol) :
    (calculateStats l).undocumented = (l.filter (fun s => !s.hasJSDoc)).length := rfl

lemma calculateStats_percentage (l : List ExportedSymbol) :
    (calculateStats l).percentage =
      if 0 < l.length then
        (200 * (l.filter (fun s => s.hasJSDoc)).length + l.length) / (2 * l.length)
      else 100 := rfl

lemma roundedPercent_eq_100_iff (d t : Nat) (hdt : d ≤ t) (ht : 0 < t) :
    ((200 * d + t) / (2 * t) = 100 ↔ 199 * t ≤ 200 * d) := by
  constructor
  · intro h
    have h1 : 100 * (2 * t) ≤ 200 * d + t :=
      (Nat.le_div_iff_mul_le (by omega)).mp (le_of_eq h.symm)
    omega
  · intro h
    have hle : 100 ≤ (200 * d + t) / (2 * t) :=
      (Nat.le_div_iff_mul_le (by omega)).mpr (by omega)
    have hlt : (200 * d + t) / (2 * t) < 101 :=
      (Nat.div_lt_iff_lt_mul (by omega)).mpr (by omega)
    omega

lemma roundedPercent_le_100 (d t : Nat) (hdt : d ≤ t) (ht : 0 < t) :
    (200 * d + t) / (2 * t) ≤ 100 := by
  have hlt : (200 * d + t) / (2 * t) < 101 :=
    (Nat.div_lt_iff_lt_mul (by omega)).mpr (by omega)
  omega

/-! ## General lemmas about the IEEE rounding model -/

lemma bitLenGo_zero (fuel : Nat) : bitLenGo fuel 0 = 0 := by cases fuel <;> rfl

lemma bitLenGo_succ (fuel n : Nat) :
    bitLenGo (fuel + 1) (n + 1) = bitLenGo fuel ((n + 1) / 2) + 1 := rfl

lemma bitLenGo_spec :
    ∀ fuel n, 1 ≤ n → n ≤ fuel →
      2 ^ (bitLenGo fuel n - 1) ≤ n ∧ n < 2 ^ bitLenGo fuel n := by
  intro fuel
  induction fuel with
  | zero => intro n h1 h2; omega
  | succ fuel ih =>
    intro n h1 h2
    obtain ⟨m, rfl⟩ : ∃ m, n = m + 1 := ⟨n - 1, by omega⟩
    rw [bitLenGo_succ]
    rcases Nat.eq_zero_or_pos m with rfl | hm
    · rw [show (0 + 1) / 2 = 0 by norm_num, bitLenGo_zero]
      norm_num
    · have hk1 : 1 ≤ (m + 1) / 2 := by omega
      have hk2 : (m + 1) / 2 ≤ fuel := by omega
      obtain ⟨i1, i2⟩ := ih ((m + 1) / 2) hk1 hk2
      set L := bitLenGo fuel ((m + 1) / 2) with hL
      have hLpos : 1 ≤ L := by
        rcases Nat.eq_zero_or_pos L with h0 | h
        · rw [h0] at i2; simp at i2; omega
        · exact h
      have e1 : 2 ^ L = 2 ^ (L - 1) * 2 := by
        rw [← pow_succ]
        congr 1
        omega
      have e2 : 2 ^ (L + 1) = 2 ^ L * 2 := pow_succ 2 L
      have hdm := Nat.div_add_mod (m + 1) 2
      have hmod : (m + 1) % 2 < 2 := Nat.mod_lt _ (by norm_num)
      constructor
      · simp only [Nat.add_sub_cancel]
        omega
      · omega

lemma bitLen_spec (n : Nat) (h : 1 ≤ n) :
    2 ^ (bitLen n - 1) ≤ n ∧ n < 2 ^ bitLen n :=
  bitLenGo_spec n n h le_rfl

lemma bitLen_pos (n : Nat) (h : 1 ≤ n) : 1 ≤ bitLen n := by
  obtain ⟨_, h2⟩ := bitLen_spec n h
  rcases Nat.eq_zero_or_pos (bitLen n) with h0 | h1
  · rw [h0] at h2; simp at h2; omega
  · exact h1

lemma qfloor_eq (q : ℚ) : qfloor q = ⌊q⌋ := Rat.floor_def.symm

lemma qpow2_eq (e : ℤ) : qpow2 e = (2 : ℚ) ^ e := by
  unfold qpow2
  split
  · next h =>
    push_cast
    rw [← zpow_natCast (2 : ℚ), Int.toNat_of_nonneg h]
  · next h =>
    rw [one_div]
    push_cast
    rw [← zpow_natCast (2 : ℚ), Int.toNat_of_nonneg (by omega : (0 : ℤ) ≤ -e),
      ← zpow_neg, neg_neg]

lemma rNE_ge (x : ℚ) : x - 1/2 ≤ (rNE x : ℚ) := by
  unfold rNE
  rw [qfloor_eq]
  have h1 : (⌊x⌋ : ℚ) ≤ x := Int.floor_le x
  have h2 : x < ⌊x⌋ + 1 := Int.lt_floor_add_one x
  split_ifs with hA hB hC <;> push_cast <;> linarith

lemma rNE_le (x : ℚ) : (rNE x : ℚ) ≤ x + 1/2 := by
  unfold rNE
  rw [qfloor_eq]
  have h1 : (⌊x⌋ : ℚ) ≤ x := Int.floor_le x
  have h2 : x < ⌊x⌋ + 1 := Int.lt_floor_add_one x
  split_ifs with hA hB hC <;> push_cast <;> linarith

lemma rNE_floor_le (x : ℚ) : ⌊x⌋ ≤ rNE x := by
  unfold rNE
  rw [qfloor_eq]
  split_ifs <;> omega

lemma rNE_le_floor_add_one (x : ℚ) : rNE x ≤ ⌊x⌋ + 1 := by
  unfold rNE
  rw [qfloor_eq]
  split_ifs <;> omega

lemma rNE_mono {x y : ℚ} (h : x ≤ y) : rNE x ≤ rNE y := by
  have hf : ⌊x⌋ ≤ ⌊y⌋ := Int.floor_le_floor h
  rcases lt_or_eq_of_le hf with hlt | heq
  · have h1 := rNE_le_floor_add_one x
    have h2 := rNE_floor_le y
    omega
  · unfold rNE
    rw [qfloor_eq, qfloor_eq, ← heq]
    split_ifs <;> first | omega | linarith

lemma cast_two_pow_int (n : ℕ) : ((2 ^ n : ℤ) : ℚ) = (2 : ℚ) ^ (n : ℤ) := by
  push_cast
  rw [zpow_natCast]

lemma two_zpow_mono {m n : ℤ} (h : m ≤ n) : (2 : ℚ) ^ m ≤ (2 : ℚ) ^ n := by
  have he : (2 : ℚ) ^ n = (2 : ℚ) ^ m * (2 : ℚ) ^ (n - m) := by
    rw [← zpow_add₀ (two_ne_zero : (2 : ℚ) ≠ 0)]
    congr 1
    ring
  have h1 : (1 : ℚ) ≤ (2 : ℚ) ^ (n - m) := by
    rw [show n - m = ((n - m).toNat : ℤ) by omega, zpow_natCast]
    exact one_le_pow₀ one_le_two
  calc (2 : ℚ) ^ m = (2 : ℚ) ^ m * 1 := (mul_one _).symm
    _ ≤ (2 : ℚ) ^ m * (2 : ℚ) ^ (n - m) :=
        mul_le_mul_of_nonneg_left h1 (le_of_lt (zpow_pos two_pos m))
    _ = (2 : ℚ) ^ n := he.symm

lemma q_eq_toNat_div_den (q : ℚ) (hq : 0 < q) :
    q = ((q.num.toNat : ℕ) : ℚ) / ((q.den : ℕ) : ℚ) := by
  have h : (q.num.toNat : ℤ) = q.num := Int.toNat_of_nonneg (le_of_lt (Rat.num_pos.mpr hq))
  have h2 : ((q.num.toNat : ℕ) : ℚ) = (q.num : ℚ) := by exact_mod_cast h
  rw [h2]
  exact (Rat.num_div_den q).symm

lemma qlog2_spec (q : ℚ) (hq : 0 < q) :
    (2 : ℚ) ^ qlog2 q ≤ q ∧ q < (2 : ℚ) ^ (qlog2 q + 1) := by
  have ha : 1 ≤ q.num.toNat := by
    have h0 : 0 < q.num := Rat.num_pos.mpr hq
    omega
  have hb : 1 ≤ q.den := Nat.pos_of_ne_zero q.den_nz
  obtain ⟨ha1, ha2⟩ := bitLen_spec q.num.toNat ha
  obtain ⟨hb1, hb2⟩ := bitLen_spec q.den hb
  have hla : 1 ≤ bitLen q.num.toNat := bitLen_pos _ ha
  have hlb : 1 ≤ bitLen q.den := bitLen_pos _ hb
  set a := q.num.toNat with hadef
  set b := q.den with hbdef
  set la := bitLen a with hladef
  set lb := bitLen b with hlbdef
  have hb0 : (0 : ℚ) < (b : ℚ) := by exact_mod_cast hb
  have hqe : q = (a : ℚ) / (b : ℚ) := q_eq_toNat_div_den q hq
  have hA2 : (a : ℚ) < (2 : ℚ) ^ (la : ℤ) := by
    rw [zpow_natCast]
    exact_mod_cast ha2
  have hA1 : (2 : ℚ) ^ ((la : ℤ) - 1) ≤ (a : ℚ) := by
    rw [show (la : ℤ) - 1 = ((la - 1 : ℕ) : ℤ) by omega, zpow_natCast]
    exact_mod_cast ha1
  have hB2 : (b : ℚ) < (2 : ℚ) ^ (lb : ℤ) := by
    rw [zpow_natCast]
    exact_mod_cast hb2
  have hB1 : (2 : ℚ) ^ ((lb : ℤ) - 1) ≤ (b : ℚ) := by
    rw [show (lb : ℤ) - 1 = ((lb - 1 : ℕ) : ℤ) by omega, zpow_natCast]
    exact_mod_cast hb1
  have hgt : (2 : ℚ) ^ ((la : ℤ) - lb - 1) < q := by
    rw [hqe, lt_div_iff₀ hb0]
    calc (2 : ℚ) ^ ((la : ℤ) - lb - 1) * b
        < (2 : ℚ) ^ ((la : ℤ) - lb - 1) * (2 : ℚ) ^ (lb : ℤ) :=
          mul_lt_mul_of_pos_left hB2 (zpow_pos two_pos _)
      _ = (2 : ℚ) ^ ((la : ℤ) - 1) := by
          rw [← zpow_add₀ (two_ne_zero : (2 : ℚ) ≠ 0)]
          congr 1
          ring
      _ ≤ (a : ℚ) := hA1
  have hlt : q < (2 : ℚ) ^ ((la : ℤ) - lb + 1) := by
    rw [hqe, div_lt_iff₀ hb0]
    calc (a : ℚ) < (2 : ℚ) ^ (la : ℤ) := hA2
      _ = (2 : ℚ) ^ ((la : ℤ) - lb + 1) * (2 : ℚ) ^ ((lb : ℤ) - 1) := by
          rw [← zpow_add₀ (two_ne_zero : (2 : ℚ) ≠ 0)]
          congr 1
          ring
      _ ≤ (2 : ℚ) ^ ((la : ℤ) - lb + 1) * (b : ℚ) :=
          mul_le_mul_of_nonneg_left hB1 (le_of_lt (zpow_pos two_pos _))
  constructor
  · unfold qlog2
    simp only [qpow2_eq, ← hadef, ← hbdef, ← hladef, ← hlbdef]
    split_ifs with htest
    · exact htest
    · exact le_of_lt hgt
  · unfold qlog2
    simp only [qpow2_eq, ← hadef, ← hbdef, ← hladef, ← hlbdef]
    split_ifs with htest
    · exact hlt
    · rw [sub_add_cancel]
      exact lt_of_not_le htest

lemma roundDouble_nonpos {q : ℚ} (h : q ≤ 0) : roundDouble q = 0 := by
  unfold roundDouble
  rw [if_pos h]

lemma roundDouble_pos_eq (q : ℚ) (hq : 0 < q) :
    roundDouble q =
      ((rNE (q / (2 : ℚ) ^ (qlog2 q - 52)) : ℤ) : ℚ) * (2 : ℚ) ^ (qlog2 q - 52) := by
  unfold roundDouble
  rw [if_neg (not_le.mpr hq)]
  simp only [qpow2_eq]

lemma roundDouble_X_bounds (q : ℚ) (hq : 0 < q) :
    ((2 ^ 52 : ℤ) : ℚ) ≤ q / (2 : ℚ) ^ (qlog2 q - 52) ∧
      q / (2 : ℚ) ^ (qlog2 q - 52) < ((2 ^ 53 : ℤ) : ℚ) := by
  have hp : (0 : ℚ) < (2 : ℚ) ^ (qlog2 q - 52) := zpow_pos two_pos _
  obtain ⟨h1, h2⟩ := qlog2_spec q hq
  constructor
  · rw [le_div_iff₀ hp, cast_two_pow_int, ← zpow_add₀ (two_ne_zero : (2 : ℚ) ≠ 0)]
    calc (2 : ℚ) ^ ((52 : ℕ) + (qlog2 q - 52))
        = (2 : ℚ) ^ qlog2 q := by congr 1; push_cast; ring
      _ ≤ q := h1
  · rw [div_lt_iff₀ hp, cast_two_pow_int, ← zpow_add₀ (two_ne_zero : (2 : ℚ) ≠ 0)]
    calc q < (2 : ℚ) ^ (qlog2 q + 1) := h2
      _ = (2 : ℚ) ^ ((53 : ℕ) + (qlog2 q - 52)) := by congr 1; push_cast; ring

lemma roundDouble_lower (q : ℚ) (hq : 0 < q) :
    (2 : ℚ) ^ qlog2 q ≤ roundDouble q := by
  obtain ⟨hX1, hX2⟩ := roundDouble_X_bounds q hq
  have hr : (2 ^ 52 : ℤ) ≤ rNE (q / (2 : ℚ) ^ (qlog2 q - 52)) := by
    have hge := rNE_ge (q / (2 : ℚ) ^ (qlog2 q - 52))
    have hcast : ((2 ^ 52 - 1 : ℤ) : ℚ) <
        ((rNE (q / (2 : ℚ) ^ (qlog2 q - 52)) : ℤ) : ℚ) := by
      push_cast at hX1 ⊢
      linarith
    have := (@Int.cast_lt ℚ _ _ _).mp hcast
    omega
  rw [roundDouble_pos_eq q hq]
  calc (2 : ℚ) ^ qlog2 q
      = ((2 ^ 52 : ℤ) : ℚ) * (2 : ℚ) ^ (qlog2 q - 52) := by
        rw [cast_two_pow_int, ← zpow_add₀ (two_ne_zero : (2 : ℚ) ≠ 0)]
        congr 1
        push_cast
        ring
    _ ≤ ((rNE (q / (2 : ℚ) ^ (qlog2 q - 52)) : ℤ) : ℚ) * (2 : ℚ) ^ (qlog2 q - 52) :=
        mul_le_mul_of_nonneg_right (by exact_mod_cast hr)
          (le_of_lt (zpow_pos two_pos _))

lemma roundDouble_upper (q : ℚ) (hq : 0 < q) :
    roundDouble q ≤ (2 : ℚ) ^ (qlog2 q + 1) := by
  obtain ⟨hX1, hX2⟩ := roundDouble_X_bounds q hq
  have hr : rNE (q / (2 : ℚ) ^ (qlog2 q - 52)) ≤ 2 ^ 53 := by
    have hle := rNE_le (q / (2 : ℚ) ^ (qlog2 q - 52))
    have hcast : ((rNE (q / (2 : ℚ) ^ (qlog2 q - 52)) : ℤ) : ℚ) <
        ((2 ^ 53 + 1 : ℤ) : ℚ) := by
      push_cast at hX2 ⊢
      linarith
    have := (@Int.cast_lt ℚ _ _ _).mp hcast
    omega
  rw [roundDouble_pos_eq q hq]
  calc ((rNE (q / (2 : ℚ) ^ (qlog2 q - 52)) : ℤ) : ℚ) * (2 : ℚ) ^ (qlog2 q - 52)
      ≤ ((2 ^ 53 : ℤ) : ℚ) * (2 : ℚ) ^ (qlog2 q - 52) :=
        mul_le_mul_of_nonneg_right (by exact_mod_cast hr)
          (le_of_lt (zpow_pos two_pos _))
    _ = (2 : ℚ) ^ (qlog2 q + 1) := by
        rw [cast_two_pow_int, ← zpow_add₀ (two_ne_zero : (2 : ℚ) ≠ 0)]
        congr 1
        push_cast
        ring

lemma roundDouble_nonneg (q : ℚ) : 0 ≤ roundDouble q := by
  rcases le_or_lt q 0 with h | h
  · rw [roundDouble_nonpos h]
  · calc (0 : ℚ) ≤ (2 : ℚ) ^ qlog2 q := le_of_lt (zpow_pos two_pos _)
      _ ≤ roundDouble q := roundDouble_lower q h

lemma qlog2_mono {x y : ℚ} (hx : 0 < x) (h : x ≤ y) : qlog2 x ≤ qlog2 y := by
  by_contra hc
  push_neg at hc
  have h1 : (2 : ℚ) ^ qlog2 x ≤ x := (qlog2_spec x hx).1
  have h2 : y < (2 : ℚ) ^ (qlog2 y + 1) := (qlog2_spec y (lt_of_lt_of_le hx h)).2
  have h3 : (2 : ℚ) ^ (qlog2 y + 1) ≤ (2 : ℚ) ^ qlog2 x := two_zpow_mono (by omega)
  linarith

lemma roundDouble_mono {x y : ℚ} (h : x ≤ y) : roundDouble x ≤ roundDouble y := by
  rcases le_or_lt x 0 with hx | hx
  · rw [roundDouble_nonpos hx]
    exact roundDouble_nonneg y
  · have hy : 0 < y := lt_of_lt_of_le hx h
    have hE : qlog2 x ≤ qlog2 y := qlog2_mono hx h
    rcases eq_or_lt_of_le hE with heq | hlt
    · rw [roundDouble_pos_eq x hx, roundDouble_pos_eq y hy, ← heq]
      have hdiv : x / (2 : ℚ) ^ (qlog2 x - 52) ≤ y / (2 : ℚ) ^ (qlog2 x - 52) := by
        gcongr
      exact mul_le_mul_of_nonneg_right (by exact_mod_cast rNE_mono hdiv)
        (le_of_lt (zpow_pos two_pos _))
    · calc roundDouble x ≤ (2 : ℚ) ^ (qlog2 x + 1) := roundDouble_upper x hx
        _ ≤ (2 : ℚ) ^ qlog2 y := two_zpow_mono (by omega)
        _ ≤ roundDouble y := roundDouble_lower y hy

lemma roundDouble_one : roundDouble 1 = 1 := by with_unfolding_all decide

lemma roundDouble_hundred : roundDouble 100 = 100 := by with_unfolding_all decide

lemma natToDouble_hundred : natToDouble 100 = 100 := by with_unfolding_all decide

lemma jsPercentage_le_100 (d t : Nat) (hdt : d ≤ t) (ht : 0 < t) :
    jsPercentage d t ≤ 100 := by
  have h1 : natToDouble d ≤ natToDouble t := by
    unfold natToDouble
    exact roundDouble_mono (by exact_mod_cast hdt)
  have h2 : (1 : ℚ) ≤ natToDouble t := by
    have := roundDouble_mono (show (1 : ℚ) ≤ (t : ℚ) by exact_mod_cast ht)
    rwa [roundDouble_one] at this
  have ht0 : (0 : ℚ) < natToDouble t := lt_of_lt_of_le zero_lt_one h2
  have h3 : natToDouble d / natToDouble t ≤ 1 := (div_le_one ht0).mpr h1
  have h4 : jsDiv (natToDouble d) (natToDouble t) ≤ 1 := by
    unfold jsDiv
    have := roundDouble_mono h3
    rwa [roundDouble_one] at this
  have h6 : jsDiv (natToDouble d) (natToDouble t) * natToDouble 100 ≤ 100 := by
    rw [natToDouble_hundred]
    calc jsDiv (natToDouble d) (natToDouble t) * 100 ≤ 1 * 100 :=
          mul_le_mul_of_nonneg_right h4 (by norm_num)
      _ = 100 := one_mul _
  have h7 : jsMul (jsDiv (natToDouble d) (natToDouble t)) (natToDouble 100) ≤ 100 := by
    unfold jsMul
    have := roundDouble_mono h6
    rwa [roundDouble_hundred] at this
  unfold jsPercentage jsMathRound
  rw [qfloor_eq]
  have hfl : ⌊(jsMul (jsDiv (natToDouble d) (natToDouble t)) (natToDouble 100) + 1/2 : ℚ)⌋ ≤
      ⌊(100 + 1/2 : ℚ)⌋ := Int.floor_le_floor (by linarith)
  have h100 : ⌊(100 + 1/2 : ℚ)⌋ = 100 := by
    rw [Int.floor_eq_iff]
    constructor <;> push_cast <;> norm_num
  omega

lemma calculateStatsJS_total (l : List ExportedSymbol) :
    (calculateStatsJS l).total = l.length := rfl

lemma calculateStatsJS_documented (l : List ExportedSymbol) :
    (calculateStatsJS l).documented = (l.filter (fun s => s.hasJSDoc)).length := rfl

lemma calculateStatsJS_undocumented (l : List ExportedSymbol) :
    (calculateStatsJS l).undocumented = (l.filter (fun s => !s.hasJSDoc)).length := rfl

lemma calculateStatsJS_percentage (l : List ExportedSymbol) :
    (calculateStatsJS l).percentage =
      if 0 < l.length then
        (jsPercentage (l.filter (fun s => s.hasJSDoc)).length l.length).toNat
      else 100 := rfl

/-! ## General lemmas about the deduplication pass -/

lemma dedupByKey_not_seen :
    ∀ (l : List TracedExport) (seen : List String) (e : TracedExport),
      e ∈ dedupByKey l seen → seen.contains (traceKey e) = false := by
  intro l
  induction l with
  | nil => intro seen e h; simp [dedupByKey] at h
  | cons x rest ih =>
    intro seen e h
    unfold dedupByKey at h
    split at h
    · exact ih seen e h
    · rcases List.mem_cons.mp h with rfl | hm
      · simp_all
      · have := ih (traceKey x :: seen) e hm
        simp only [List.contains_cons, Bool.or_eq_false_iff] at this
        exact this.2

lemma dedupByKey_pairwise :
    ∀ (l : List TracedExport) (seen : List String),
      (dedupByKey l seen).Pairwise (fun a b => traceKey a ≠ traceKey b) := by
  intro l
  induction l with
  | nil => intro seen; simp [dedupByKey]
  | cons x rest ih =>
    intro seen
    unfold dedupByKey
    split
    · exact ih seen
    · refine List.Pairwise.cons ?_ (ih (traceKey x :: seen))
      intro b hb
      have := dedupByKey_not_seen rest (traceKey x :: seen) b hb
      simp only [List.contains_cons, Bool.or_eq_false_iff] at this
      intro hk
      have hbx : (traceKey b == traceKey x) = false := this.1
      rw [hk] at hbx
      simp at hbx

/-! ## General lemmas about the tracer -/

lemma traceGo_zero (fs : FileSys) (job : TraceJob) (st : TraceState) :
    traceGo fs 0 job st = none := rfl

lemma traceGo_file (fs : FileSys) (n : Nat) (p : String) (st : TraceState) :
    traceGo fs (n + 1) (.file p) st =
      if st.analyzedFiles.contains p then some st
      else
        match fs.readFile p with
        | none => some { st with analyzedFiles := p :: st.analyzedFiles }
        | some content =>
          traceGo fs n (.lines p content (dirname p)
            (enumFrom 0 (jsSplit content "\n")))
            { st with analyzedFiles := p :: st.analyzedFiles } := rfl

lemma traceGo_lines_nil (fs : FileSys) (n : Nat) (a b c : String)
    (st : TraceState) : traceGo fs (n + 1) (.lines a b c []) st = some st := rfl

lemma traceGo_lines_cons (fs : FileSys) (n : Nat) (fp c d : String) (i : Nat)
    (raw : String) (rest2 : List (Nat × String)) (st : TraceState) :
    traceGo fs (n + 1) (.lines fp c d ((i, raw) :: rest2)) st =
      match starTarget fs (jsTrim raw) d with
      | some resolvedPath =>
        match traceGo fs n (.file resolvedPath) st with
        | none => none
        | some st2 =>
          traceGo fs n (.lines fp c d rest2)
            (((mapFind st2.exportMap resolvedPath).getD []).foldl
              (fun s e => addExport s fp e) st2)
      | none =>
        traceGo fs n (.lines fp c d rest2)
          (lineEffect fs fp c d i (jsTrim raw) st) := rfl

lemma traceGo_file_visited (fs : FileSys) (n : Nat) (p : String)
    (st : TraceState) (hvis : st.analyzedFiles.contains p = true) :
    traceGo fs (n + 1) (.file p) st = some st := by
  rw [traceGo_file, if_pos hvis]

lemma traceGo_file_unread (fs : FileSys) (n : Nat) (p : String)
    (st : TraceState) (hvis : st.analyzedFiles.contains p = false)
    (hr : fs.readFile p = none) :
    traceGo fs (n + 1) (.file p) st =
      some { st with analyzedFiles := p :: st.analyzedFiles } := by
  rw [traceGo_file, if_neg (by rw [hvis]; exact Bool.false_ne_true), hr]

lemma traceGo_file_read (fs : FileSys) (n : Nat) (p content : String)
    (st : TraceState) (hvis : st.analyzedFiles.contains p = false)
    (hr : fs.readFile p = some content) :
    traceGo fs (n + 1) (.file p) st =
      traceGo fs n (.lines p content (dirname p)
        (enumFrom 0 (jsSplit content "\n")))
        { st with analyzedFiles := p :: st.analyzedFiles } := by
  rw [traceGo_file, if_neg (by rw [hvis]; exact Bool.false_ne_true), hr]

lemma traceGo_lines_cons_plain (fs : FileSys) (n : Nat) (fp c d : String)
    (i : Nat) (raw : String) (rest2 : List (Nat × String)) (st : TraceState)
    (hstar : starTarget fs (jsTrim raw) d = none) :
    traceGo fs (n + 1) (.lines fp c d ((i, raw) :: rest2)) st =
      traceGo fs n (.lines fp c d rest2)
        (lineEffect fs fp c d i (jsTrim raw) st) := by
  rw [traceGo_lines_cons, hstar]

lemma traceGo_lines_cons_star (fs : FileSys) (n : Nat) (fp c d rp : String)
    (i : Nat) (raw : String) (rest2 : List (Nat × String)) (st st2 : TraceState)
    (hstar : starTarget fs (jsTrim raw) d = some rp)
    (htr : traceGo fs n (.file rp) st = some st2) :
    traceGo fs (n + 1) (.lines fp c d ((i, raw) :: rest2)) st =
      traceGo fs n (.lines fp c d rest2)
        (((mapFind st2.exportMap rp).getD []).foldl
          (fun s e => addExport s fp e) st2) := by
  rw [traceGo_lines_cons, hstar]
  simp only [htr]

lemma traceGo_lines_cons_star_fail (fs : FileSys) (n : Nat) (fp c d rp : String)
    (i : Nat) (raw : String) (rest2 : List (Nat × String)) (st : TraceState)
    (hstar : starTarget fs (jsTrim raw) d = some rp)
    (htr : traceGo fs n (.file rp) st = none) :
    traceGo fs (n + 1) (.lines fp c d ((i, raw) :: rest2)) st = none := by
  rw [traceGo_lines_cons, hstar]
  simp only [htr]

@[simp] lemma addExport_analyzedFiles (st : TraceState) (f : String)
    (e : TracedExport) : (addExport st f e).analyzedFiles = st.analyzedFiles := by
  simp only [addExport]
  split <;> split <;> rfl

@[simp] lemma addSelectiveExport_analyzedFiles (fs : FileSys) (fp rp : String)
    (i : Nat) (st : TraceState) (item : String) :
    (addSelectiveExport fs fp rp i st item).analyzedFiles = st.analyzedFiles := by
  simp only [addSelectiveExport, addExport_analyzedFiles]

@[simp] lemma addLocalExport_analyzedFiles (fs : FileSys) (fp c d : String)
    (i : Nat) (st : TraceState) (item : String) :
    (addLocalExport fs fp c d i st item).analyzedFiles = st.analyzedFiles := by
  simp only [addLocalExport]
  split <;> simp [addExport_analyzedFiles]

lemma foldl_analyzedFiles (g : TraceState → α → TraceState)
    (hg : ∀ s a, (g s a).analyzedFiles = s.analyzedFiles) :
    ∀ (l : List α) (st : TraceState),
      (l.foldl g st).analyzedFiles = st.analyzedFiles := by
  intro l
  induction l with
  | nil => intro st; rfl
  | cons a t ih => intro st; rw [List.foldl_cons, ih, hg]

@[simp] lemma lineEffect_analyzedFiles (fs : FileSys) (fp c d : String)
    (i : Nat) (t : String) (st : TraceState) :
    (lineEffect fs fp c d i t st).analyzedFiles = st.analyzedFiles := by
  unfold lineEffect
  repeat' split
  all_goals
    first
      | rfl
      | exact foldl_analyzedFiles _
          (fun s a => addSelectiveExport_analyzedFiles _ _ _ _ s a) _ _
      | exact foldl_analyzedFiles _
          (fun s a => addLocalExport_analyzedFiles _ _ _ _ _ s a) _ _
      | exact addExport_analyzedFiles _ _ _

lemma enumFrom_length : ∀ (n : Nat) (l : List α), (enumFrom n l).length = l.length := by
  intro n l
  induction l generalizing n with
  | nil => rfl
  | cons a t ih => simp [enumFrom, ih]

lemma contains_cons_of (l : List String) (a x : String)
    (hx : l.contains x = true) : (a :: l).contains x = true := by
  simp at hx ⊢
  exact Or.inr hx

lemma contains_cons_self (l : List String) (a : String) :
    (a :: l).contains a = true := by simp

lemma unvisitedWeight_mono (analyzed analyzed2 : List String)
    (hsub : ∀ x, analyzed.contains x = true → analyzed2.contains x = true) :
    ∀ files, unvisitedWeight analyzed2 files ≤ unvisitedWeight analyzed files := by
  intro files
  induction files with
  | nil => exact Nat.le_refl 0
  | cons e rest ih =>
    unfold unvisitedWeight
    have hhead : (if analyzed2.contains e.1 then 0 else fileWeight e) ≤
        (if analyzed.contains e.1 then 0 else fileWeight e) := by
      cases hA : analyzed.contains e.1 with
      | true =>
        have h2 : e.1 ∈ analyzed2 := by simpa using hsub e.1 hA
        simp [h2, hA]
      | false => split <;> simp
    exact Nat.add_le_add hhead ih

lemma unvisitedWeight_le_total (analyzed : List String) :
    ∀ files, unvisitedWeight analyzed files ≤ (files.map fileWeight).sum := by
  intro files
  induction files with
  | nil => simp [unvisitedWeight]
  | cons e rest ih =>
    unfold unvisitedWeight
    simp only [List.map_cons, List.sum_cons]
    have hle : (if analyzed.contains e.1 then 0 else fileWeight e) ≤ fileWeight e := by
      split <;> omega
    exact Nat.add_le_add hle ih

lemma readFile_find (fs : FileSys) (p c : String) (h : fs.readFile p = some c) :
    ∃ ent, fs.files.find? (fun e => e.1 == p) = some ent ∧ ent.2 = c := by
  unfold FileSys.readFile at h
  cases hf : fs.files.find? (fun e => e.1 == p) with
  | none => rw [hf] at h; cases h
  | some ent =>
    rw [hf] at h
    simp at h
    exact ⟨ent, rfl, h⟩

lemma unvisitedWeight_visit (p : String) (analyzed : List String)
    (hnew : analyzed.contains p = false) :
    ∀ (files : List (String × String)) (ent : String × String),
      files.find? (fun e => e.1 == p) = some ent →
      unvisitedWeight (p :: analyzed) files + fileWeight ent ≤
        unvisitedWeight analyzed files := by
  intro files
  induction files with
  | nil => intro ent h; cases h
  | cons e rest ih =>
    intro ent h
    rw [List.find?_cons] at h
    cases hep : (e.1 == p) with
    | true =>
      rw [hep] at h
      simp at h
      have hep2 : e.1 = p := by simpa using hep
      have hcont : (p :: analyzed).contains e.1 = true := by
        rw [hep2]; exact contains_cons_self _ _
      have hA : analyzed.contains e.1 = false := by rw [hep2]; exact hnew
      have hmono := unvisitedWeight_mono analyzed (p :: analyzed)
        (fun x hx => contains_cons_of _ _ _ hx) rest
      unfold unvisitedWeight
      rw [hcont, hA, ← h]
      simp only [if_true, Bool.false_eq_true, if_false]
      omega
    | false =>
      rw [hep] at h
      simp at h
      have hep2 : ¬ (e.1 = p) := by simpa using hep
      have hhead : (p :: analyzed).contains e.1 = analyzed.contains e.1 := by
        simp [hep2]
      unfold unvisitedWeight
      rw [hhead]
      have hih := ih ent h
      cases hA2 : analyzed.contains e.1 with
      | true =>
        rw [if_pos rfl]
        omega
      | false =>
        rw [if_neg Bool.false_ne_true]
        omega

theorem traceGo_mono (fs : FileSys) :
    ∀ (fuel : Nat) (job : TraceJob) (st st2 : TraceState),
      traceGo fs fuel job st = some st2 →
      ∀ x, st.analyzedFiles.contains x = true →
        st2.analyzedFiles.contains x = true := by
  intro fuel
  induction fuel with
  | zero => intro job st st2 h; rw [traceGo_zero] at h; cases h
  | succ n ih =>
    intro job st st2 h x hx
    cases job with
    | file p =>
      cases hvis : st.analyzedFiles.contains p with
      | true =>
        rw [traceGo_file_visited fs n p st hvis] at h
        cases h; exact hx
      | false =>
        cases hr : fs.readFile p with
        | none =>
          rw [traceGo_file_unread fs n p st hvis hr] at h
          cases h
          exact contains_cons_of _ _ _ hx
        | some content =>
          rw [traceGo_file_read fs n p content st hvis hr] at h
          exact ih _ _ _ h x (contains_cons_of _ _ _ hx)
    | lines fp c d rest =>
      cases rest with
      | nil => rw [traceGo_lines_nil] at h; cases h; exact hx
      | cons hd rest2 =>
        obtain ⟨i, raw⟩ := hd
        cases hstar : starTarget fs (jsTrim raw) d with
        | none =>
          rw [traceGo_lines_cons_plain fs n fp c d i raw rest2 st hstar] at h
          exact ih _ _ _ h x (by rw [lineEffect_analyzedFiles]; exact hx)
        | some resolvedPath =>
          cases htr : traceGo fs n (.file resolvedPath) st with
          | none =>
            rw [traceGo_lines_cons_star_fail fs n fp c d resolvedPath i raw
              rest2 st hstar htr] at h
            cases h
          | some stMid =>
            rw [traceGo_lines_cons_star fs n fp c d resolvedPath i raw rest2
              st stMid hstar htr] at h
            have hx2 := ih _ _ _ htr x hx
            refine ih _ _ _ h x ?_
            rw [foldl_analyzedFiles _ (fun s a => addExport_analyzedFiles s fp a)]
            exact hx2

theorem traceGo_isSome (fs : FileSys) :
    ∀ (fuel : Nat) (job : TraceJob) (st : TraceState),
      jobCost fs job st < fuel → (traceGo fs fuel job st).isSome = true := by
  intro fuel
  induction fuel with
  | zero => intro job st h; omega
  | succ n ih =>
    intro job st h
    cases job with
    | file p =>
      cases hvis : st.analyzedFiles.contains p with
      | true => rw [traceGo_file_visited fs n p st hvis]; rfl
      | false =>
        cases hr : fs.readFile p with
        | none => rw [traceGo_file_unread fs n p st hvis hr]; rfl
        | some content =>
          rw [traceGo_file_read fs n p content st hvis hr]
          apply ih
          obtain ⟨ent, hfind, hc⟩ := readFile_find fs p content hr
          have hvisit := unvisitedWeight_visit p st.analyzedFiles hvis fs.files ent hfind
          have hw : fileWeight ent = (jsSplit content "\n").length + 2 := by
            unfold fileWeight; rw [hc]
          simp only [jobCost] at h ⊢
          rw [enumFrom_length]
          omega
    | lines fp c d rest =>
      cases rest with
      | nil => rw [traceGo_lines_nil]; rfl
      | cons hd rest2 =>
        obtain ⟨i, raw⟩ := hd
        cases hstar : starTarget fs (jsTrim raw) d with
        | none =>
          rw [traceGo_lines_cons_plain fs n fp c d i raw rest2 st hstar]
          apply ih
          simp only [jobCost, lineEffect_analyzedFiles, List.length_cons] at h ⊢
          omega
        | some resolvedPath =>
          have hfile : (traceGo fs n (.file resolvedPath) st).isSome = true := by
            apply ih
            simp only [jobCost, List.length_cons] at h ⊢
            omega
          obtain ⟨stMid, htr⟩ := Option.isSome_iff_exists.mp hfile
          rw [traceGo_lines_cons_star fs n fp c d resolvedPath i raw rest2
            st stMid hstar htr]
          apply ih
          have hsub := traceGo_mono fs n (.file resolvedPath) st stMid htr
          have hwle := unvisitedWeight_mono st.analyzedFiles stMid.analyzedFiles
            hsub fs.files
          simp only [jobCost, List.length_cons] at h ⊢
          rw [foldl_analyzedFiles _ (fun s a => addExport_analyzedFiles s fp a)]
          omega

theorem traceGo_fuel_succ (fs : FileSys) :
    ∀ (fuel : Nat) (job : TraceJob) (st r : TraceState),
      traceGo fs fuel job st = some r → traceGo fs (fuel + 1) job st = some r := by
  intro fuel
  induction fuel with
  | zero => intro job st r h; rw [traceGo_zero] at h; cases h
  | succ n ih =>
    intro job st r h
    cases job with
    | file p =>
      cases hvis : st.analyzedFiles.contains p with
      | true =>
        rw [traceGo_file_visited fs n p st hvis] at h
        rw [traceGo_file_visited fs (n + 1) p st hvis]
        exact h
      | false =>
        cases hr : fs.readFile p with
        | none =>
          rw [traceGo_file_unread fs n p st hvis hr] at h
          rw [traceGo_file_unread fs (n + 1) p st hvis hr]
          exact h
        | some content =>
          rw [traceGo_file_read fs n p content st hvis hr] at h
          rw [traceGo_file_read fs (n + 1) p content st hvis hr]
          exact ih _ _ _ h
    | lines fp c d rest =>
      cases rest with
      | nil => rw [traceGo_lines_nil] at h ⊢; exact h
      | cons hd rest2 =>
        obtain ⟨i, raw⟩ := hd
        cases hstar : starTarget fs (jsTrim raw) d with
        | none =>
          rw [traceGo_lines_cons_plain fs n fp c d i raw rest2 st hstar] at h
          rw [traceGo_lines_cons_plain fs (n + 1) fp c d i raw rest2 st hstar]
          exact ih _ _ _ h
        | some resolvedPath =>
          cases htr : traceGo fs n (.file resolvedPath) st with
          | none =>
            rw [traceGo_lines_cons_star_fail fs n fp c d resolvedPath i raw
              rest2 st hstar htr] at h
            cases h
          | some stMid =>
            rw [traceGo_lines_cons_star fs n fp c d resolvedPath i raw rest2
              st stMid hstar htr] at h
            rw [traceGo_lines_cons_star fs (n + 1) fp c d resolvedPath i raw
              rest2 st stMid hstar (ih _ _ _ htr)]
            exact ih _ _ _ h

theorem traceGo_fuel_add (fs : FileSys) :
    ∀ (k fuel : Nat) (job : TraceJob) (st r : TraceState),
      traceGo fs fuel job st = some r → traceGo fs (fuel + k) job st = some r := by
  intro k
  induction k with
  | zero => intro fuel job st r h; exact h
  | succ m ih =>
    intro fuel job st r h
    exact traceGo_fuel_succ fs (fuel + m) job st r (ih fuel job st r h)

theorem traceGo_fuel_mono (fs : FileSys) (fuel fuel2 : Nat) (hle : fuel ≤ fuel2)
    (job : TraceJob) (st r : TraceState) (h : traceGo fs fuel job st = some r) :
    traceGo fs fuel2 job st = some r := by
  obtain ⟨k, rfl⟩ := Nat.exists_eq_add_of_le hle
  exact traceGo_fuel_add fs k fuel job st r h

/-!
## Claim theorems
-/

/-- Claim C1 (counterexample).  The claim asserts that at most one
ExportedSymbol survives per (sourceFile, originally-declared name,
exportedName) triple in public-API mode.  In fsOverload the single traced
export (f, f, /r1/mod.ts) — one triple, one surviving TracedExport — still
yields two ExportedSymbols in the final symbols list, because both overload
signature lines match the traced name during symbol synthesis, so the
at-most-one property fails at the symbols level. -/
theorem c1_counterexample :
    ((analyzeFromExports fsOverload "/r1" (.str "./mod.ts")).symbols.map
        (fun s => (s.file, s.name, s.line)) =
      [("mod.ts", "f", 1), ("mod.ts", "f", 2)]) ∧
    ((uniqueExportsOf
        (analyzeFromExports fsOverload "/r1" (.str "./mod.ts")).exportMap).map
        traceQuad = [("f", "f", "/r1/mod.ts", 1)]) ∧
    ¬ (((analyzeFromExports fsOverload "/r1" (.str "./mod.ts")).symbols.filter
        (fun s => s.file == "mod.ts" && s.name == "f")).length ≤ 1) :=
  ⟨by decide, by decide, by decide⟩

/-- Claim C1 (amended).  Deduplication holds at the TracedExport level: the
list handed to JSDoc analysis never contains two entries with the same
(sourcePath, originalName, exportedName) key, so two re-export chains
reaching the same declaration collapse to one TracedExport; the final
symbols list may nevertheless contain several ExportedSymbols for one
triple when several declaration lines match the traced name, as fsOverload
shows. -/
theorem c1_amended :
    (∀ m : List (String × List TracedExport),
      (uniqueExportsOf m).Pairwise (fun a b => traceKey a ≠ traceKey b)) ∧
    ((analyzeFromExports fsOverload "/r1" (.str "./mod.ts")).symbols.map
        (fun s => (s.file, s.name, s.line)) =
      [("mod.ts", "f", 1), ("mod.ts", "f", 2)]) :=
  ⟨fun m => by unfold uniqueExportsOf; exact dedupByKey_pairwise _ _, by decide⟩

/-- Claim C2 (counterexample).  With 249 documented symbols out of 250 the
rounded percentage is 100 although the set is neither empty nor fully
documented, so the stated equivalence fails in the forward direction. -/
theorem c2_counterexample :
    ¬ ((calculateStats c2Symbols).percentage = 100 ↔
      ((calculateStats c2Symbols).total = 0 ∨
        (calculateStats c2Symbols).documented = (calculateStats c2Symbols).total)) := by
  decide

/-- Claim C2 (amended).  The correct characterization of a reported 100:
the set is empty, or the documented fraction reaches the rounding threshold
199/200 (in particular every fully documented set reports 100, but so does
any set with at least 199 documented per 199 total-to-200 ratio). -/
theorem c2_amended (symbols : List ExportedSymbol) :
    ((calculateStats symbols).percentage = 100 ↔
      ((calculateStats symbols).total = 0 ∨
        199 * (calculateStats symbols).total ≤ 200 * (calculateStats symbols).documented)) := by
  rw [calculateStats_percentage, calculateStats_total, calculateStats_documented]
  rcases Nat.eq_zero_or_pos symbols.length with h0 | hpos
  · simp [h0]
  · rw [if_pos hpos,
      roundedPercent_eq_100_iff _ _ (List.length_filter_le _ _) hpos]
    constructor
    · exact Or.inr
    · rintro (h | h)
      · omega
      · exact h

/-- Claim C8 (counterexample).  With 23 documented symbols of 40 the source
computes Math.round((23/40)*100) in binary64: the rounded double quotient
times 100 lands just below the half-integer tie 57.5, so the program reports
57 — but "documented/total*100 rounded to the nearest integer" (half-up, as
Math.round rounds exact ties, and likewise under ties-to-even) is 58, so
the claimed percentage formula fails on this input. -/
theorem c8_counterexample :
    ((calculateStatsJS c8Symbols).total = 40) ∧
    ((calculateStatsJS c8Symbols).documented = 23) ∧
    ((calculateStatsJS c8Symbols).percentage = 57) ∧
    ((200 * (calculateStatsJS c8Symbols).documented + (calculateStatsJS c8Symbols).total) /
        (2 * (calculateStatsJS c8Symbols).total) = 58) ∧
    ¬ ((calculateStatsJS c8Symbols).percentage =
        (200 * (calculateStatsJS c8Symbols).documented + (calculateStatsJS c8Symbols).total) /
          (2 * (calculateStatsJS c8Symbols).total)) := by
  with_unfolding_all decide

/-- Claim C8 (amended).  For every symbol list the documented and
undocumented counts partition the total and the percentage is at most 100
(and at least 0, trivially in the natural numbers); the percentage is 100 on
an empty set and otherwise Math.round applied to the IEEE binary64
evaluation of (documented/total)*100 — not the exact nearest-integer
rounding of documented/total*100, from which it can differ at half-integer
ties of the quotient, as the 23-of-40 run shows. -/
theorem c8_amended (symbols : List ExportedSymbol) :
    ((calculateStatsJS symbols).documented + (calculateStatsJS symbols).undocumented =
      (calculateStatsJS symbols).total) ∧
    ((calculateStatsJS symbols).percentage ≤ 100) ∧
    ((calculateStatsJS symbols).percentage =
      if (calculateStatsJS symbols).total = 0 then 100
      else (jsPercentage (calculateStatsJS symbols).documented
        (calculateStatsJS symbols).total).toNat) := by
  refine ⟨?_, ?_, ?_⟩
  · rw [calculateStatsJS_documented, calculateStatsJS_undocumented, calculateStatsJS_total]
    exact length_filter_add_length_filter_not _ _
  · rw [calculateStatsJS_percentage]
    rcases Nat.eq_zero_or_pos symbols.length with h0 | hpos
    · simp [h0]
    · rw [if_pos hpos]
      have hb := jsPercentage_le_100 (symbols.filter (fun s => s.hasJSDoc)).length
        symbols.length (List.length_filter_le _ _) hpos
      exact Int.toNat_le.mpr (by exact_mod_cast hb)
  · rw [calculateStatsJS_percentage, calculateStatsJS_total, calculateStatsJS_documented]
    rcases Nat.eq_zero_or_pos symbols.length with h0 | hpos
    · simp [h0]
    · rw [if_pos hpos, if_neg (by omega)]

/-- Claim C3 (counterexample).  In fsGhost the entry re-exports
"ghost as bar" from a module that never declares ghost: the TracedExport is
recorded with the re-export's own line number, but the analysis yields no
symbol named bar at all — the claim's fallback clause promises a symbol
carrying the re-export's line, yet the symbol silently vanishes. -/
theorem c3_counterexample :
    ((uniqueExportsOf
        (analyzeFromExports fsGhost "/r3" (.str "./mod.ts")).exportMap).map
        traceQuad = [("ghost", "bar", "/r3/m.ts", 1)]) ∧
    ((analyzeFromExports fsGhost "/r3" (.str "./mod.ts")).symbols.all
        (fun s => !(s.name == "bar")) = true) ∧
    ((analyzeFromExports fsGhost "/r3" (.str "./mod.ts")).symbols = []) :=
  ⟨by decide, by decide, by decide⟩

/-- Claim C3 (amended).  Rename fidelity holds when the declaration is
locatable: in fsRename the renamed export yields a symbol named bar whose
file and line are foo's declaration (m.ts, line 3), not the re-export
statement (mod.ts, line 1).  When the declaration cannot be located, the
re-export's own line number is recorded only in the TracedExport; no symbol
is produced unless a declaration-like line matching the original name is
found, as fsGhost shows. -/
theorem c3_amended :
    ((analyzeFromExports fsRename "/r3b" (.str "./mod.ts")).symbols =
      [⟨"bar", "function", "m.ts", 3, false, none, "named"⟩]) ∧
    ((uniqueExportsOf
        (analyzeFromExports fsGhost "/r3" (.str "./mod.ts")).exportMap).map
        traceQuad = [("ghost", "bar", "/r3/m.ts", 1)]) ∧
    ((analyzeFromExports fsGhost "/r3" (.str "./mod.ts")).symbols = []) :=
  ⟨by decide, by decide, by decide⟩

/-- Claim C4 (counterexample).  The claim asserts that a failure to read
the designated entry file propagates to the caller as a hard error.  With
fsEntryMissing the configured entry ./mod.ts does not exist, yet the
analysis returns an ordinary successful result with zero symbols (and a
vacuous 100 percent): the entry read happens inside the same catch-all as
every other read, so nothing propagates. -/
theorem c4_counterexample :
    analyzeDirectory fsEntryMissing "/" "/r4" (some ⟨some (.str "./mod.ts")⟩) [] =
      .ok { path := "/r4", hasDenoJson := true, hasExports := true,
            exportPath := some "./mod.ts", symbols := [],
            stats := ⟨0, 0, 0, 100, []⟩ } := by rfl

/-- Claim C4 (amended).  Every unreadable file encountered by the tracer —
the designated entry file included — is silently skipped: tracing an
unvisited path that cannot be read merely marks it visited and changes
nothing else, and the run continues normally. -/
theorem c4_amended (fs : FileSys) (fuel : Nat) (filePath : String)
    (st : TraceState) (hfuel : 1 ≤ fuel)
    (hread : fs.readFile filePath = none)
    (hnew : st.analyzedFiles.contains filePath = false) :
    traceExportsFromFile fs fuel filePath st =
      some { st with analyzedFiles := filePath :: st.analyzedFiles } := by
  match fuel, hfuel with
  | fuel + 1, _ =>
    unfold traceExportsFromFile traceGo
    rw [hnew]
    simp only [Bool.false_eq_true, if_false]
    rw [hread]

/-- Witness for c4_amended at a concrete input. -/
theorem c4_amended_witness :
    (1 ≤ 1) ∧ (fsEntryMissing.readFile "/r4/mod.ts" = none) ∧
    ((⟨[], []⟩ : TraceState).analyzedFiles.contains "/r4/mod.ts" = false) ∧
    (traceExportsFromFile fsEntryMissing 1 "/r4/mod.ts" ⟨[], []⟩ =
      some { analyzedFiles := ["/r4/mod.ts"], exportMap := [] }) :=
  ⟨by decide, by decide, by decide,
    c4_amended fsEntryMissing 1 "/r4/mod.ts" ⟨[], []⟩ (by decide) (by decide) (by decide)⟩

/-- Claim C6 (counterexample).  The claim asserts that a documentation
block carrying the module tag is discarded in both modes.  In full-scan
mode (analyzeFile) there is no module-tag check at all: in fsModuleDoc the
block containing the tag is associated with the following export, which is
reported as documented. -/
theorem c6_counterexample :
    analyzeFile fsModuleDoc "/" "/r6" "/r6/a.ts" =
      .ok [⟨"f", "function", "a.ts", 2, true, some "/** @module */", "named"⟩] := by
  rfl

/-- Claim C7 (counterexample).  The claim asserts that a traced name with
no locatable declaration still appears in the final symbols output with
the fallback line number.  In fsNoDecl the TracedExport does record the
re-export's own line, but the final symbols list is empty: the symbol
silently vanishes, because symbol synthesis only emits symbols for
declaration lines found in the source file and never consults the recorded
fallback line. -/
theorem c7_counterexample :
    ((uniqueExportsOf
        (analyzeFromExports fsNoDecl "/r7" (.str "./mod.ts")).exportMap).map
        traceQuad = [("ghost", "ghost", "/r7/lib.ts", 1)]) ∧
    ((analyzeFromExports fsNoDecl "/r7" (.str "./mod.ts")).symbols = []) :=
  ⟨by decide, by decide⟩

/-- Claim C9 (counterexample).  The claim asserts that classifying the
block-export line "export (brace) a, b as c (brace)" returns all
(originalName, exportedName) pairs.  parseExportedSymbol — the classifier
used by full-scan analysis — returns only the first item's original name:
analyzing a file holding exactly that line yields the single symbol a, not
the two entries (a, a) and (b, c). -/
theorem c9_counterexample :
    analyzeFile fsBlock "/" "/r9" "/r9/a.ts" =
      .ok [⟨"a", "variable", "a.ts", 1, false, none, "named"⟩] := by rfl

/-- Claim C9 (amended).  The full pair list is produced by the tracer: in
public-API mode the same line contributes both (a, a) and (b, c), each with
kind left undetermined; the classifier parseExportedSymbol, by contrast,
keeps only the first item's original name (kind variable), as its own
source comment concedes. -/
theorem c9_amended :
    ((uniqueExportsOf
        (analyzeFromExports fsBlock "/r9" (.str "./a.ts")).exportMap).map
        traceQuad = [("a", "a", "/r9/a.ts", 1), ("b", "c", "/r9/a.ts", 1)]) ∧
    (parseExportedSymbol "export \x7b a, b as c \x7d" 0 "a.ts" [] =
      some ⟨"a", "variable", "a.ts", 1, false, none, "named"⟩) :=
  ⟨by decide, by decide⟩

/-- Claim C5 (confirmed).  For every file system, start state and start
file, the tracer terminates: any fuel of at least fsBound — one more than
the total line-weight of the file system — yields a defined result, and the
result no longer depends on the fuel.  This is the termination property of
the source recursion, whose guard is the visited set a file joins before
its body is scanned: every re-entry into a visited file returns at once, so
the recursion depth is bounded by the unvisited weight, cyclic
export-asterisk chains included. -/
theorem c5_termination (fs : FileSys) (st : TraceState) (filePath : String)
    (fuel fuel2 : Nat) (h : fsBound fs ≤ fuel) (h2 : fsBound fs ≤ fuel2) :
    (traceExportsFromFile fs fuel filePath st).isSome = true ∧
    traceExportsFromFile fs fuel filePath st =
      traceExportsFromFile fs fuel2 filePath st := by
  have hbase : ∀ g, fsBound fs ≤ g →
      (traceGo fs g (.file filePath) st).isSome = true := by
    intro g hg
    apply traceGo_isSome
    have hw := unvisitedWeight_le_total st.analyzedFiles fs.files
    simp only [jobCost]
    unfold fsBound at hg
    omega
  have hsome := hbase (fsBound fs) (Nat.le_refl _)
  obtain ⟨r, hr⟩ := Option.isSome_iff_exists.mp hsome
  have e1 := traceGo_fuel_mono fs (fsBound fs) fuel h (.file filePath) st r hr
  have e2 := traceGo_fuel_mono fs (fsBound fs) fuel2 h2 (.file filePath) st r hr
  unfold traceExportsFromFile
  rw [e1, e2]
  exact ⟨rfl, rfl⟩

/-- Witness for c5_termination: the two-file export-asterisk cycle of
fsCycle terminates with a stable result. -/
theorem c5_termination_witness :
    (fsBound fsCycle ≤ 9) ∧ (fsBound fsCycle ≤ 10) ∧
    ((traceExportsFromFile fsCycle 9 "/r5/A.ts" ⟨[], []⟩).isSome = true ∧
      traceExportsFromFile fsCycle 9 "/r5/A.ts" ⟨[], []⟩ =
        traceExportsFromFile fsCycle 10 "/r5/A.ts" ⟨[], []⟩) :=
  ⟨by decide, by decide,
    c5_termination fsCycle ⟨[], []⟩ "/r5/A.ts" 9 10 (by decide) (by decide)⟩

/-! ## Lemmas for the entry-point loop -/

lemma traceBound_isSome (fs : FileSys) (q : String) (st : TraceState) :
    (traceExportsFromFile fs (fsBound fs) q st).isSome = true := by
  apply traceGo_isSome
  have hw := unvisitedWeight_le_total st.analyzedFiles fs.files
  simp only [jobCost]
  unfold fsBound
  omega

lemma traceFile_self_mem (fs : FileSys) (fuel : Nat) (p : String)
    (st st2 : TraceState) (hfuel : 1 ≤ fuel)
    (h : traceGo fs fuel (.file p) st = some st2) :
    st2.analyzedFiles.contains p = true := by
  match fuel, hfuel with
  | n + 1, _ =>
    cases hvis : st.analyzedFiles.contains p with
    | true =>
      rw [traceGo_file_visited fs n p st hvis] at h
      cases h; exact hvis
    | false =>
      cases hr : fs.readFile p with
      | none =>
        rw [traceGo_file_unread fs n p st hvis hr] at h
        cases h
        exact contains_cons_self _ _
      | some content =>
        rw [traceGo_file_read fs n p content st hvis hr] at h
        exact traceGo_mono fs n _ _ _ h p (contains_cons_self _ _)

lemma traceStep_mem_self (fs : FileSys) (root : String) (st : TraceState)
    (q : String) :
    (traceStep fs root st q).analyzedFiles.contains (joinPath root q) = true := by
  unfold traceStep
  obtain ⟨st2, h2⟩ :=
    Option.isSome_iff_exists.mp (traceBound_isSome fs (joinPath root q) st)
  rw [h2]
  simp only [Option.getD]
  have hfuel : 1 ≤ fsBound fs := by unfold fsBound; omega
  exact traceFile_self_mem fs (fsBound fs) (joinPath root q) st st2 hfuel h2

lemma traceStep_mem_mono (fs : FileSys) (root : String) (st : TraceState)
    (q x : String) (hx : st.analyzedFiles.contains x = true) :
    (traceStep fs root st q).analyzedFiles.contains x = true := by
  unfold traceStep
  cases h : traceExportsFromFile fs (fsBound fs) (joinPath root q) st with
  | none => simpa using hx
  | some st2 =>
    simp only [Option.getD]
    exact traceGo_mono fs (fsBound fs) _ _ _ h x hx

lemma foldTrace_mem_mono (fs : FileSys) (root : String) :
    ∀ (paths : List String) (st : TraceState) (x : String),
      st.analyzedFiles.contains x = true →
      ((paths.foldl (traceStep fs root) st).analyzedFiles.contains x = true) := by
  intro paths
  induction paths with
  | nil => intro st x hx; exact hx
  | cons q rest ih =>
    intro st x hx
    rw [List.foldl_cons]
    exact ih _ _ (traceStep_mem_mono fs root st q x hx)

lemma foldTrace_mem (fs : FileSys) (root : String) :
    ∀ (paths : List String) (st : TraceState) (p : String), p ∈ paths →
      ((paths.foldl (traceStep fs root) st).analyzedFiles.contains
        (joinPath root p) = true) := by
  intro paths
  induction paths with
  | nil => intro st p h; cases h
  | cons q rest ih =>
    intro st p hp
    rw [List.foldl_cons]
    rcases List.mem_cons.mp hp with rfl | hm
    · exact foldTrace_mem_mono fs root rest _ _ (traceStep_mem_self fs root st p)
    · exact ih _ _ hm

/-- Claim C10 (confirmed).  When the configuration's exports field is a
mapping, every value of the mapping is traced as an entry point — each
joined entry path ends up in the visited set of the run — while the
exportPath field of the returned result reports only the first value of
the mapping (the head of Object.values), not all of them. -/
theorem c10_exports_mapping (fs : FileSys) (cwd targetPath : String)
    (m : List (String × String)) (walkFiles : List String)
    (hstat : fs.statOk (resolvePath targetPath) = true) :
    ((analyzeDirectory fs cwd targetPath (some ⟨some (.obj m)⟩) walkFiles).toOption.map
      (fun r => r.exportPath) = some ((m.map (·.2)).head?)) ∧
    ((m.map (·.2)).all (fun p =>
      (analyzeFromExports fs (resolvePath targetPath) (.obj m)).analyzedFiles.contains
        (joinPath (resolvePath targetPath) p)) = true) := by
  constructor
  · unfold analyzeDirectory
    simp only [hstat, Bool.not_true]
    rfl
  · rw [List.all_eq_true]
    intro p hp
    exact foldTrace_mem fs (resolvePath targetPath) (m.map (·.2)) ⟨[], []⟩ p hp

/-! ## Lemmas for the documentation-block invariant -/

lemma noModule_blocksSet (blocks : List (Nat × String)) (k : Nat) (v : String)
    (hb : noModuleBlocks blocks = true) (hv : jsIncludes v "@module" = false) :
    noModuleBlocks (blocksSet blocks k v) = true := by
  unfold noModuleBlocks at hb ⊢
  rw [List.all_eq_true] at hb ⊢
  unfold blocksSet
  split
  · intro e he
    obtain ⟨e2, he2, heq⟩ := List.mem_map.mp he
    subst heq
    split
    · simp [hv]
    · exact hb e2 he2
  · intro e he
    rcases List.mem_append.mp he with hm | hm
    · exact hb e hm
    · rw [List.mem_singleton.mp hm]
      simp [hv]

lemma noModule_windowFold (len : Nat) (content : String) :
    ∀ (ks : List Nat) (b : List (Nat × String)),
      noModuleBlocks b = true → jsIncludes content "@module" = false →
      noModuleBlocks (ks.foldl
        (fun b2 k => if k < len then blocksSet b2 k content else b2) b) = true := by
  intro ks
  induction ks with
  | nil => intro b hb _; exact hb
  | cons k rest ih =>
    intro b hb hv
    rw [List.foldl_cons]
    refine ih _ ?_ hv
    split
    · exact noModule_blocksSet b k content hb hv
    · exact hb

lemma noModule_assocDoc (len : Nat) (content : String)
    (hv : jsIncludes content "@module" = false) :
    ∀ (rest : List (Nat × String)) (blocks : List (Nat × String)),
      noModuleBlocks blocks = true →
      noModuleBlocks (assocDoc len content blocks rest) = true := by
  intro rest
  induction rest with
  | nil => intro blocks hb; exact hb
  | cons hd rest2 ih =>
    intro blocks hb
    obtain ⟨j, raw⟩ := hd
    unfold assocDoc
    dsimp only
    split
    · split
      · exact noModule_windowFold len content _ _
          (noModule_blocksSet blocks j content hb hv) hv
      · exact hb
    · exact ih blocks hb

lemma noModule_track (rest : List (Nat × String)) (len : Nat) (raw : String)
    (st : JsdocScan) (hb : noModuleBlocks st.blocks = true) :
    noModuleBlocks (jsdocTrack rest len raw st).1.blocks = true := by
  unfold jsdocTrack
  dsimp only
  split
  · split
    · split
      · rename_i hguard
        refine noModule_assocDoc len (jsTrim raw) ?_ rest st.blocks hb
        cases hmv : jsIncludes (jsTrim raw) "@module"
        · rfl
        · rw [hmv] at hguard; simp at hguard
      · exact hb
    · exact hb
  · split
    · split
      · split
        · exact hb
        · rename_i hguard
          refine noModule_assocDoc len _ ?_ rest st.blocks hb
          cases hmv : jsIncludes (joinWith "\n" (st.current ++ [raw])) "@module"
          · rfl
          · exact absurd hmv hguard
      · exact hb
    · exact hb

lemma foldl_blocks (g : JsdocScan → α → JsdocScan)
    (hg : ∀ s a, (g s a).blocks = s.blocks) :
    ∀ (l : List α) (st : JsdocScan), (l.foldl g st).blocks = st.blocks := by
  intro l
  induction l with
  | nil => intro st; rfl
  | cons a t ih => intro st; rw [List.foldl_cons, ih, hg]

lemma jsdocSymbols_blocks (restLines : List String) (sp rp : String)
    (ses : List TracedExport) (i : Nat) (trimmed : String) (st : JsdocScan) :
    (jsdocSymbols restLines sp rp ses i trimmed st).blocks = st.blocks := by
  unfold jsdocSymbols
  split
  · split
    · split
      · split <;> rfl
      · rfl
    · rfl
  · refine foldl_blocks _ ?_ ses st
    intro s a
    split
    · split <;> rfl
    · rfl

lemma noModule_jsdocLoop (len : Nat) (sp rp : String) (ses : List TracedExport) :
    ∀ (rest : List (Nat × String)) (st : JsdocScan),
      noModuleBlocks st.blocks = true →
      noModuleBlocks (jsdocLoop len sp rp ses rest st).blocks = true := by
  intro rest
  induction rest with
  | nil => intro st hb; exact hb
  | cons hd rest2 ih =>
    intro st hb
    obtain ⟨i, raw⟩ := hd
    unfold jsdocLoop
    dsimp only
    have htrack := noModule_track rest2 len raw st hb
    refine ih _ ?_
    split
    · exact htrack
    · rw [jsdocSymbols_blocks]
      exact htrack

/-- Claim C6 (amended).  In public-API mode the module-tag filter is
effective: the documentation-block map built by the scanner of
analyzeFileForJSDoc never associates a block containing the module tag
with any line, so such a block can never make a symbol documented there;
in full-scan mode (analyzeFile) there is no such filter, and a module-tag
block does make the following export count as documented, while the
public-API analysis of the same file reports it undocumented. -/
theorem c6_amended :
    (∀ (len : Nat) (sp rp : String) (ses : List TracedExport)
      (rest : List (Nat × String)) (st : JsdocScan),
      noModuleBlocks st.blocks = true →
      noModuleBlocks (jsdocLoop len sp rp ses rest st).blocks = true) ∧
    (analyzeFile fsModuleDoc "/" "/r6" "/r6/a.ts" =
      .ok [⟨"f", "function", "a.ts", 2, true, some "/** @module */", "named"⟩]) ∧
    ((analyzeFromExports fsModuleDoc "/r6" (.str "./a.ts")).symbols =
      [⟨"f", "function", "a.ts", 2, false, none, "named"⟩]) :=
  ⟨fun len sp rp ses rest st hb => noModule_jsdocLoop len sp rp ses rest st hb,
    by rfl, by decide⟩

/-- Witness for c6_amended on the concrete scan of fsModuleDoc. -/
theorem c6_amended_witness :
    (noModuleBlocks ([] : List (Nat × String)) = true) ∧
    (noModuleBlocks (jsdocLoop 2 "/r6/a.ts" "a.ts" [⟨"f", "f", "/r6/a.ts", 2⟩]
      (enumFrom 0 (jsSplit "/** @module */\nexport function f() \x7b\x7d" "\n"))
      ⟨[], [], []⟩).blocks = true) :=
  ⟨by decide,
    c6_amended.1 2 "/r6/a.ts" "a.ts" [⟨"f", "f", "/r6/a.ts", 2⟩]
      (enumFrom 0 (jsSplit "/** @module */\nexport function f() \x7b\x7d" "\n"))
      ⟨[], [], []⟩ (by decide)⟩

/-! ## Lemmas for line-number independence of symbol synthesis -/

lemma find?_lineMap (f : TracedExport → Nat) (name sp : String) :
    ∀ ses : List TracedExport,
      (ses.map (lineMap f)).find?
        (fun exp => exp.originalName == name && exp.sourcePath == sp) =
      (ses.find? (fun exp => exp.originalName == name && exp.sourcePath == sp)).map
        (lineMap f) := by
  intro ses
  induction ses with
  | nil => rfl
  | cons a t ih =>
    rw [List.map_cons, List.find?_cons, List.find?_cons]
    have hcond : ((lineMap f a).originalName == name &&
        (lineMap f a).sourcePath == sp) =
      (a.originalName == name && a.sourcePath == sp) := rfl
    rw [hcond]
    cases hp : (a.originalName == name && a.sourcePath == sp) with
    | true => rfl
    | false => exact ih

lemma jsdocSymbols_lineMap (f : TracedExport → Nat) (restLines : List String)
    (sp rp : String) (i : Nat) (trimmed : String) (st : JsdocScan)
    (ses : List TracedExport) :
    jsdocSymbols restLines sp rp (ses.map (lineMap f)) i trimmed st =
      jsdocSymbols restLines sp rp ses i trimmed st := by
  unfold jsdocSymbols
  split
  · cases hex : extractExportName (gatherDecl restLines trimmed) with
    | none => rfl
    | some lineExportName =>
      dsimp only
      rw [find?_lineMap]
      cases hfind : ses.find? (fun exp =>
          exp.originalName == lineExportName && exp.sourcePath == sp) with
      | none => rfl
      | some exp => rfl
  · rw [List.foldl_map]
    rfl

lemma groupAdd_lineMap (f : TracedExport → Nat) (exp : TracedExport)
    (m : List (String × List TracedExport)) :
    groupAdd (m.map (groupMap f)) (lineMap f exp) =
      (groupAdd m exp).map (groupMap f) := by
  unfold groupAdd
  have hc : ((m.map (groupMap f)).any
        (fun e => e.1 == (lineMap f exp).sourcePath)) =
      (m.any (fun e => e.1 == exp.sourcePath)) := by
    rw [List.any_map]
    rfl
  rw [hc]
  split
  · rw [List.map_map, List.map_map]
    congr 1
    funext kv
    dsimp only [Function.comp, groupMap, lineMap]
    split
    · rw [List.map_append]
      rfl
    · rfl
  · rw [List.map_append]
    rfl

lemma groupFold_lineMap (f : TracedExport → Nat) :
    ∀ (exports : List TracedExport)
      (accM : List (String × List TracedExport)) (seen : List String),
      (exports.map (lineMap f)).foldl groupStep (accM.map (groupMap f), seen) =
      ((exports.foldl groupStep (accM, seen)).1.map (groupMap f),
        (exports.foldl groupStep (accM, seen)).2) := by
  intro exports
  induction exports with
  | nil => intro accM seen; rfl
  | cons e t ih =>
    intro accM seen
    rw [List.map_cons, List.foldl_cons, List.foldl_cons]
    unfold groupStep
    have hkey : jsdocKey (lineMap f e) = jsdocKey e := rfl
    rw [hkey]
    dsimp only
    cases hc : seen.contains (jsdocKey e) with
    | true =>
      rw [if_pos rfl, if_pos rfl]
      exact ih accM seen
    | false =>
      rw [if_neg Bool.false_ne_true, if_neg Bool.false_ne_true,
        groupAdd_lineMap]
      exact ih (groupAdd accM e) (jsdocKey e :: seen)

lemma groupBySource_lineMap (f : TracedExport → Nat)
    (exports : List TracedExport) :
    groupBySource (exports.map (lineMap f)) =
      (groupBySource exports).map (groupMap f) :=
  congrArg Prod.fst (groupFold_lineMap f exports [] [])

lemma jsdocLoop_lineMap (f : TracedExport → Nat) (len : Nat) (sp rp : String) :
    ∀ (rest : List (Nat × String)) (st : JsdocScan) (ses : List TracedExport),
      jsdocLoop len sp rp (ses.map (lineMap f)) rest st =
        jsdocLoop len sp rp ses rest st := by
  intro rest
  induction rest with
  | nil => intro st ses; rfl
  | cons hd rest2 ih =>
    intro st ses
    obtain ⟨i, raw⟩ := hd
    unfold jsdocLoop
    dsimp only
    rw [jsdocSymbols_lineMap, ih]

lemma analyzeFileForJSDoc_lineMap (fs : FileSys) (f : TracedExport → Nat)
    (rootPath : String) (exports : List TracedExport) :
    analyzeFileForJSDoc fs (exports.map (lineMap f)) rootPath =
      analyzeFileForJSDoc fs exports rootPath := by
  unfold analyzeFileForJSDoc
  rw [groupBySource_lineMap, List.foldl_map]
  apply List.foldl_ext
  intro symbols kv _
  dsimp only [groupMap]
  cases hr : fs.readFile kv.1 with
  | none => rfl
  | some content =>
    dsimp only
    rw [jsdocLoop_lineMap]

/-- Claim C7 (amended).  The trace does record the re-export's own line
number as the fallback location of an unlocatable declaration, so the
TracedExport is not dropped; but the recorded line numbers are never
consulted by symbol synthesis — replacing every line field by anything at
all leaves the final symbols unchanged — and a traced name matching no
declaration-like line of its source file therefore produces no symbol in
the output, as fsNoDecl shows. -/
theorem c7_amended :
    (∀ (fs : FileSys) (rootPath : String) (exports : List TracedExport)
      (f : TracedExport → Nat),
      analyzeFileForJSDoc fs (exports.map (lineMap f)) rootPath =
        analyzeFileForJSDoc fs exports rootPath) ∧
    ((uniqueExportsOf
        (analyzeFromExports fsNoDecl "/r7" (.str "./mod.ts")).exportMap).map
        traceQuad = [("ghost", "ghost", "/r7/lib.ts", 1)]) ∧
    ((analyzeFromExports fsNoDecl "/r7" (.str "./mod.ts")).symbols = []) :=
  ⟨fun fs rootPath exports f => analyzeFileForJSDoc_lineMap fs f rootPath exports,
    by decide, by decide⟩

/-- Witness for c10_exports_mapping at the concrete two-entry mapping of
fsMapping. -/
theorem c10_exports_mapping_witness :
    (fsMapping.statOk (resolvePath "/r10") = true) ∧
    (((analyzeDirectory fsMapping "/" "/r10"
        (some ⟨some (.obj mapExports)⟩) []).toOption.map
      (fun r => r.exportPath) = some ((mapExports.map (·.2)).head?)) ∧
    ((mapExports.map (·.2)).all (fun p =>
      (analyzeFromExports fsMapping (resolvePath "/r10") (.obj mapExports)).analyzedFiles.contains
        (joinPath (resolvePath "/r10") p)) = true)) :=
  ⟨by decide, c10_exports_mapping fsMapping "/" "/r10" mapExports [] (by decide)⟩

end Doggo
